import Mathlib

/-!
Verification development for the JsonhCpp reader (JSONH, "JSON for Humans").

The definitions below are a shallow embedding of the C++ sources:
* `utf8_reader` embeds `jsonh_cpp/utf8_reader.hpp`: a byte-level UTF-8 rune
  reader over an in-memory byte buffer (`std::istream` over a string).
  Runes are represented as the byte lists (`List Nat`, each entry one byte,
  0..255) that `read()` returns as `std::string` values.  `char` is modelled
  as signed (the implementation-defined signedness of `char` on the
  mainstream x86-64 targets), so `(char)b` for a byte `b ≥ 0x80` denotes
  `b - 256`.
* `jsonh_number_parse` and its helpers embed `jsonh_cpp/jsonh_number_parser.hpp`.
  The C++ computes in `long double`; the embedding computes in `ℚ`, which
  agrees with the C++ exactly on every value examined by the theorems below
  (small integers and integral powers of ten, all exactly representable).
* the `read_*` functions and `parse_element` embed `jsonh_cpp/jsonh_reader.hpp`
  (the current implementation, `jsonh_cpp` namespace).  The mutually
  recursive grammar productions are tied together by a fuel-indexed step
  function `elementStep`; running out of fuel yields a final failure entry.
  Every loop whose body consumes at least one byte per iteration receives
  the sufficient fuel `remaining bytes + 1` at its call site.
-/

deriving instance DecidableEq for Except

/-- One byte of input (0..255). -/
abbrev Byte := Nat

/-- A rune as returned by `utf8_reader::read`: the raw bytes of the
`std::string`. -/
abbrev Rune := List Byte

/-- `(char)b` for a byte `b`, with `char` signed (x86-64). -/
def signed_char (b : Byte) : Int :=
  if b < 128 then (b : Int) else (b : Int) - 256

/-- Embeds `utf8_reader::get_utf8_sequence_length(char first_byte)`:
`((first_byte - 160) >> (20 - (first_byte / 16))) + 2` with C++ semantics,
`/` truncating toward zero and `>>` an arithmetic shift. -/
def get_utf8_sequence_length (first_byte : Int) : Int :=
  (Int.fdiv (first_byte - 160) (2 ^ (20 - Int.tdiv first_byte 16).toNat)) + 2

/-- `get_utf8_sequence_length ((char)b)` as used by `utf8_reader::read`. -/
def utf8_seq_len_byte (b : Byte) : Nat :=
  (get_utf8_sequence_length (signed_char b)).toNat

/-- Embeds `utf8_reader::is_utf8_first_byte`: `(byte & 0xC0) != 0x80`. -/
def is_utf8_first_byte (b : Byte) : Bool :=
  (b &&& 0xC0) != 0x80

/-- Embeds the `utf8_reader` object: the byte buffer of the underlying
`std::istringstream` plus the current byte position. -/
structure utf8_reader where
  data : List Byte
  pos : Nat
deriving DecidableEq, Repr

namespace utf8_reader

/-- Constructs a reader over a byte string, positioned at the start. -/
def mk0 (data : List Byte) : utf8_reader := ⟨data, 0⟩

/-- Embeds `utf8_reader::read`: reads the first byte; ASCII bytes return
immediately; otherwise `get_utf8_sequence_length` further bytes are read
(`gcount` trimming included) and the position advances past all bytes read. -/
def read (s : utf8_reader) : Option (Rune × utf8_reader) :=
  match s.data.get? s.pos with
  | none => none
  | some b =>
    if b ≤ 127 then
      some ([b], ⟨s.data, s.pos + 1⟩)
    else
      let n := utf8_seq_len_byte b
      let extra := (s.data.drop (s.pos + 1)).take n
      some (b :: extra, ⟨s.data, s.pos + 1 + extra.length⟩)

/-- Embeds `utf8_reader::peek`: read then restore the position. -/
def peek (s : utf8_reader) : Option Rune :=
  (s.read).map (·.1)

/-- Advances past the next rune, discarding it (a bare `read()` call). -/
def read_skip (s : utf8_reader) : utf8_reader :=
  match s.read with
  | none => s
  | some (_, s') => s'

/-- Embeds `utf8_reader::read_one`. -/
def read_one (option : Rune) (s : utf8_reader) : Bool × utf8_reader :=
  if s.peek = some option then (true, s.read_skip) else (false, s)

/-- Embeds `utf8_reader::read_any`. -/
def read_any (options : List Rune) (s : utf8_reader) : Option Rune × utf8_reader :=
  match s.peek with
  | none => (none, s)
  | some next =>
    if options.contains next then (some next, s.read_skip) else (none, s)

/-- Embeds the byte-collection loop of `utf8_reader::read_reverse`: walk
backwards over up to four bytes, appending each byte as visited, and return
as soon as a non-continuation byte is reached.  The bytes of a multi-byte
rune are returned in the reversed order in which they were appended (the
`std::reverse` call in the source is only reached after the loop, on the
path that returns `std::nullopt`). -/
def read_reverse_loop : Nat → utf8_reader → List Byte → Option (List Byte × utf8_reader)
  | 0, _, _ => none
  | k + 1, s, bytes =>
    if s.pos = 0 then none
    else
      let p := s.pos - 1
      match s.data.get? p with
      | none => none
      | some b =>
        let bytes := bytes ++ [b]
        if is_utf8_first_byte b then some (bytes, ⟨s.data, p⟩)
        else read_reverse_loop k ⟨s.data, p⟩ bytes

/-- Embeds `utf8_reader::read_reverse`. -/
def read_reverse (s : utf8_reader) : Option (List Byte × utf8_reader) :=
  read_reverse_loop 4 s []

/-- `seek(0, std::ios::end)`. -/
def seek_end (s : utf8_reader) : utf8_reader := ⟨s.data, s.data.length⟩

/-- The number of bytes that remain after the current position: the
sufficient fuel for a loop that consumes at least one byte per iteration. -/
def rfuel (s : utf8_reader) : Nat := s.data.length + 1

end utf8_reader

/-- `l.erase(pos, count)` on a byte string. -/
def list_erase (l : List Byte) (pos count : Nat) : List Byte :=
  l.take pos ++ l.drop (pos + count)

/-- Lexicographic `<` on `std::string` values. -/
def bytes_lt : List Byte → List Byte → Bool
  | _, [] => false
  | [], _ :: _ => true
  | a :: as, b :: bs => if a < b then true else if b < a then false else bytes_lt as bs

/-- Lexicographic `<=` on `std::string` values. -/
def bytes_le (a b : List Byte) : Bool := !(bytes_lt b a)

/-- `haystack.find(needle) != npos`: substring containment on byte strings. -/
def bytes_starts (needle l : List Byte) : Bool :=
  match needle, l with
  | [], _ => true
  | _ :: _, [] => false
  | a :: as, b :: bs => a = b && bytes_starts as bs

/-- Substring search used for `base_digits.find(...) != std::string::npos`. -/
def bytes_has_substring (needle l : List Byte) : Bool :=
  match l with
  | [] => needle.isEmpty
  | _ :: t => bytes_starts needle l || bytes_has_substring needle t

/-- Embeds `jsonh_reader::to_ascii_lower` (per byte: `'A'..'Z'` plus 32). -/
def to_ascii_lower (s : List Byte) : List Byte :=
  s.map fun b => if 65 ≤ b ∧ b ≤ 90 then b + 32 else b

/-- 32-bit unsigned wraparound. -/
def u32 (n : Nat) : Nat := n % 4294967296

/-- 32-bit unsigned subtraction `a - b` (wrapping). -/
def usub32 (a b : Nat) : Nat := u32 (a + 4294967296 - u32 b)

/-- Embeds `jsonh_reader::utf16_surrogates_to_code_point`:
`0x10000 + (((high - 0xD800) << 10) | (low - 0xDC00))` in `unsigned int`
arithmetic (mod 2^32). -/
def utf16_surrogates_to_code_point (high_surrogate low_surrogate : Nat) : Nat :=
  u32 (0x10000 + (u32 (usub32 high_surrogate 0xD800 <<< 10) ||| usub32 low_surrogate 0xDC00))

/-- Embeds `jsonh_reader::is_utf16_high_surrogate`. -/
def is_utf16_high_surrogate (code_point : Nat) : Bool :=
  0xD800 ≤ code_point && code_point ≤ 0xDBFF

/-- Embeds `jsonh_reader::code_point_to_utf8`. -/
def code_point_to_utf8 (code_point : Nat) : Except String (List Byte) :=
  if 0xD800 ≤ code_point ∧ code_point ≤ 0xDFFF then
    .error ("Invalid code point (surrogate half)")
  else if code_point ≤ 0x7F then
    .ok [code_point]
  else if code_point ≤ 0x7FF then
    .ok [0xC0 ||| (code_point >>> 6), 0x80 ||| (code_point &&& 0x3F)]
  else if code_point ≤ 0xFFFF then
    .ok [0xE0 ||| (code_point >>> 12), 0x80 ||| ((code_point >>> 6) &&& 0x3F),
         0x80 ||| (code_point &&& 0x3F)]
  else if code_point ≤ 0x10FFFF then
    .ok [0xF0 ||| (code_point >>> 18), 0x80 ||| ((code_point >>> 12) &&& 0x3F),
         0x80 ||| ((code_point >>> 6) &&& 0x3F), 0x80 ||| (code_point &&& 0x3F)]
  else
    .error ("Invalid code point (out of range)")

section number_parsing

/-! ### Number parsing (`jsonh_number_parser.hpp`) -/

/-- The decimal digit alphabet `"0123456789"`. -/
def base10_digits : List Byte := [48, 49, 50, 51, 52, 53, 54, 55, 56, 57]

/-- The hexadecimal digit alphabet `"0123456789abcdef"`. -/
def base16_digits : List Byte :=
  [48, 49, 50, 51, 52, 53, 54, 55, 56, 57, 97, 98, 99, 100, 101, 102]

/-- The binary digit alphabet `"01"`. -/
def base2_digits : List Byte := [48, 49]

/-- The octal digit alphabet `"01234567"`. -/
def base8_digits : List Byte := [48, 49, 50, 51, 52, 53, 54, 55]

/-- `std::string::find(char)` as an optional index. -/
def byte_index_of (l : List Byte) (b : Byte) : Option Nat :=
  match l with
  | [] => none
  | x :: t => if x = b then some 0 else (byte_index_of t b).map (· + 1)

/-- Modelled from the spec: the host `strtold` on a decimal string
("decimal mantissa, fraction and exponent parts are delegated to the host
strtold, so empty or non-numeric text silently yields 0").  Parses the
longest prefix of the form `[ws][±][digits][.digits][(e|E)[±]digits]` and
returns its exact rational value; anything unparsable yields 0. -/
def string_to_number (value : List Byte) : ℚ :=
  let afterWs := value.dropWhile (fun b => b = 32 ∨ (9 ≤ b ∧ b ≤ 13))
  let (sgn, rest) :=
    match afterWs with
    | 45 :: t => ((-1 : ℚ), t)
    | 43 :: t => ((1 : ℚ), t)
    | t => ((1 : ℚ), t)
  let digits := rest.takeWhile (fun b => 48 ≤ b ∧ b ≤ 57)
  let rest1 := rest.drop digits.length
  let (frac, rest2) :=
    match rest1 with
    | 46 :: t =>
      let fd := t.takeWhile (fun b => 48 ≤ b ∧ b ≤ 57)
      (fd, t.drop fd.length)
    | t => ([], t)
  if digits.isEmpty ∧ frac.isEmpty then 0
  else
    let whole : ℚ := digits.foldl (fun acc b => acc * 10 + ((b - 48 : Nat) : ℚ)) 0
    let fracV : ℚ := frac.foldl (fun acc b => acc * 10 + ((b - 48 : Nat) : ℚ)) 0
    let mant : ℚ := whole + fracV / (10 : ℚ) ^ frac.length
    let expo : Int :=
      match rest2 with
      | 101 :: t | 69 :: t =>
        let (esgn, et) : Int × List Byte :=
          match t with
          | 45 :: u => (-1, u)
          | 43 :: u => (1, u)
          | u => (1, u)
        let ed := et.takeWhile (fun b => 48 ≤ b ∧ b ≤ 57)
        if ed.isEmpty then 0
        else esgn * (ed.foldl (fun acc b => acc * 10 + (b - 48 : Nat)) 0 : Nat)
      | _ => 0
    sgn * mant * (10 : ℚ) ^ expo

/-- Modelled from the spec: the host `std::ostringstream` rendering of a
`long double` (`number_to_string`), faithful for the nonnegative integers
produced by `parse_whole_number`; other values (which use `%g`-style
formatting with precision 6) are outside the scope of the theorems below. -/
def number_to_string (value : ℚ) : List Byte :=
  if value.den = 1 ∧ 0 ≤ value.num then
    (Nat.toDigits 10 value.num.toNat).map (fun c => c.toNat)
  else
    []

/-- Modelled from the spec: `pow(10, exponent)` on `long double`, exact at
integral exponents (the only exponents the theorems below evaluate). -/
def pow10q (e : ℚ) : ℚ :=
  if e.den = 1 then (10 : ℚ) ^ e.num else 0

/-- Embeds `jsonh_number_parser::parse_whole_number`. -/
def parse_whole_number (digits base_digits : List Byte) : Except String ℚ :=
  if base_digits = base10_digits then
    .ok (string_to_number digits)
  else
    let (sgn, digits) :=
      match digits with
      | 45 :: t => ((-1 : ℚ), t)
      | 43 :: t => ((1 : ℚ), t)
      | t => ((1 : ℚ), t)
    let folded := digits.foldlM (m := Except String)
      (fun (acc : ℚ) (b : Byte) =>
        match byte_index_of base_digits (to_ascii_lower [b]).headI with
        | none => .error ("Invalid digit")
        | some d => .ok (acc * (base_digits.length : ℚ) + (d : ℚ)))
      0
    match folded with
    | .error e => .error e
    | .ok n => .ok (sgn * n)

/-- Embeds `jsonh_number_parser::parse_fractional_number`. -/
def parse_fractional_number (digits base_digits : List Byte) : Except String ℚ :=
  if base_digits = base10_digits then
    .ok (string_to_number digits)
  else
    match byte_index_of digits 46 with
    | none => parse_whole_number digits base_digits
    | some dot_index =>
      let whole_part := digits.take dot_index
      let fraction_part := digits.drop (dot_index + 1)
      match parse_whole_number whole_part base_digits with
      | .error e => .error e
      | .ok whole =>
        match parse_whole_number fraction_part base_digits with
        | .error e => .error e
        | .ok fraction =>
          let zeroes := fraction_part.takeWhile (fun b => b = 48)
          let combined :=
            number_to_string whole ++ [46] ++ zeroes.map (fun _ => 48)
              ++ number_to_string fraction
          .ok (string_to_number combined)

/-- The exponent-marker search of
`jsonh_number_parser::parse_fractional_number_with_exponent`: in a digit
alphabet containing `e`, only an `e`/`E` immediately followed by `+`/`-`
splits; otherwise the first `e`/`E` splits. -/
def find_exponent_index (digits base_digits : List Byte) : Option Nat :=
  if bytes_has_substring [101] base_digits then
    let rec go : List Byte → Nat → Option Nat
      | [], _ => none
      | [_], _ => none
      | a :: b :: t, i =>
        if (a = 101 ∨ a = 69) ∧ (b = 43 ∨ b = 45) then some i
        else go (b :: t) (i + 1)
    go digits 0
  else
    let rec go10 : List Byte → Nat → Option Nat
      | [], _ => none
      | a :: t, i => if a = 101 ∨ a = 69 then some i else go10 t (i + 1)
    go10 digits 0

/-- Embeds `jsonh_number_parser::parse_fractional_number_with_exponent`. -/
def parse_fractional_number_with_exponent (digits base_digits : List Byte) :
    Except String ℚ :=
  match find_exponent_index digits base_digits with
  | none => parse_fractional_number digits base_digits
  | some exponent_index =>
    let mantissa_part := digits.take exponent_index
    let exponent_part := digits.drop (exponent_index + 1)
    match parse_fractional_number mantissa_part base_digits with
    | .error e => .error e
    | .ok mantissa =>
      match parse_fractional_number exponent_part base_digits with
      | .error e => .error e
      | .ok exponent => .ok (mantissa * pow10q exponent)

/-- The underscore-stripping step of `jsonh_number_parser::parse`. -/
def remove_underscores (jsonh_number : List Byte) : List Byte :=
  jsonh_number.filter (fun b => b ≠ 95)

/-- The sign-stripping step of `jsonh_number_parser::parse`. -/
def strip_number_sign (digits : List Byte) : ℚ × List Byte :=
  match digits with
  | 45 :: t => (-1, t)
  | 43 :: t => (1, t)
  | t => (1, t)

/-- The base-prefix dispatch of `jsonh_number_parser::parse`. -/
def strip_base_specifier (digits : List Byte) : List Byte × List Byte :=
  if bytes_starts [48, 120] digits ∨ bytes_starts [48, 88] digits then
    (base16_digits, digits.drop 2)
  else if bytes_starts [48, 98] digits ∨ bytes_starts [48, 66] digits then
    (base2_digits, digits.drop 2)
  else if bytes_starts [48, 111] digits ∨ bytes_starts [48, 79] digits then
    (base8_digits, digits.drop 2)
  else
    (base10_digits, digits)

/-- Embeds `jsonh_number_parser::parse` (`long double` modelled as `ℚ`). -/
def jsonh_number_parse (jsonh_number : List Byte) : Except String ℚ :=
  let digits0 := remove_underscores jsonh_number
  let (sgn, digits1) := strip_number_sign digits0
  let (base_digits, digits2) := strip_base_specifier digits1
  match parse_fractional_number_with_exponent digits2 base_digits with
  | .error e => .error e
  | .ok number => .ok (sgn * number)

end number_parsing

section tokens

/-! ### Tokens and options (`jsonh_token.hpp`, `jsonh_reader_options.hpp`,
`jsonh_version.hpp`) -/

/-- Embeds `json_token_type`. -/
inductive json_token_type where
  | none
  | start_object
  | end_object
  | start_array
  | end_array
  | property_name
  | comment
  | string
  | number
  | true_bool
  | false_bool
  | null
deriving DecidableEq, Repr

/-- Embeds `jsonh_token`: a token type plus its value text (bytes). -/
structure jsonh_token where
  json_type : json_token_type
  value : List Byte := []
deriving DecidableEq, Repr

/-- Embeds `jsonh_version`. -/
inductive jsonh_version where
  | latest
  | v1
  | v2
deriving DecidableEq, Repr

/-- The underlying integer of a `jsonh_version` value. -/
def jsonh_version.toNat : jsonh_version → Nat
  | .latest => 0
  | .v1 => 1
  | .v2 => 2

/-- Embeds `jsonh_reader_options` (the full declaration, with `max_depth`
defaulting to 64). -/
structure jsonh_reader_options where
  version : jsonh_version := .latest
  parse_single_element : Bool := false
  max_depth : Int := 64
  incomplete_inputs : Bool := false
deriving DecidableEq, Repr

/-- Embeds `jsonh_reader_options::supports_version`. -/
def jsonh_reader_options.supports_version (o : jsonh_reader_options)
    (minimum_version : jsonh_version) : Bool :=
  let latest_version := jsonh_version.v2
  let options_version := if o.version = .latest then latest_version else o.version
  let given_version :=
    if minimum_version = .latest then latest_version else minimum_version
  given_version.toNat ≤ options_version.toNat

/-- A token-or-failure entry of the token sequence
(`nonstd::expected<jsonh_token, std::string>`). -/
abbrev TokenResult := Except String jsonh_token

end tokens

section rune_sets

/-! ### The tokenizer's character classes (`jsonh_reader.hpp`) -/

/-- Embeds `jsonh_reader::reserved_runes`. -/
def reserved_runes : List Rune :=
  [[92], [44], [58], [91], [93], [123], [125], [47], [35], [34], [39]]

/-- Embeds `jsonh_reader::newline_runes`
(`\n`, `\r`, U+2028, U+2029 as UTF-8 bytes). -/
def newline_runes : List Rune :=
  [[10], [13], [226, 128, 168], [226, 128, 169]]

/-- Embeds `jsonh_reader::whitespace_runes` (each entry the UTF-8 bytes of
the listed code point, in source order). -/
def whitespace_runes : List Rune :=
  [[32], [194, 160], [225, 154, 128], [226, 128, 128], [226, 128, 129],
   [226, 128, 130], [226, 128, 131], [226, 128, 132], [226, 128, 133],
   [226, 128, 134], [226, 128, 135], [226, 128, 136], [226, 128, 137],
   [226, 128, 138], [226, 128, 175], [226, 129, 159], [227, 128, 128],
   [226, 128, 168], [226, 128, 169], [9], [10], [11], [12], [13], [194, 133]]

end rune_sets

section escapes

/-! ### Escape sequences (`jsonh_reader.hpp`) -/

open utf8_reader

/-- Embeds `jsonh_reader::read_hex_sequence`: read `length` runes, each a
hexadecimal digit, and fold them into an unsigned value. -/
def read_hex_sequence : Nat → utf8_reader → Except String Nat × utf8_reader
  | 0, s => (.ok 0, s)
  | len + 1, s => read_hex_sequence_go (len + 1) s []
where
  hex_val (b : Byte) : Nat :=
    if b ≤ 57 then b - 48 else if b ≤ 70 then b - 55 else b - 87
  read_hex_sequence_go : Nat → utf8_reader → List Byte → Except String Nat × utf8_reader
    | 0, s, acc => (.ok (acc.foldl (fun n b => n * 16 + hex_val b) 0), s)
    | k + 1, s, acc =>
      match s.read with
      | Option.none =>
        (.error ("Incorrect number of hexadecimal digits in unicode escape sequence"), s)
      | Option.some (next, s') =>
        if (bytes_le [48] next ∧ bytes_le next [57])
            ∨ (bytes_le [65] next ∧ bytes_le next [70])
            ∨ (bytes_le [97] next ∧ bytes_le next [102]) then
          read_hex_sequence_go k s' (acc ++ [next.headI])
        else
          (.error ("Incorrect number of hexadecimal digits in unicode escape sequence"), s')

/-- Embeds `jsonh_reader::read_hex_escape_sequence`: read a hex code point;
after a high surrogate, opportunistically read a following `\u`/`\x`/`\U`
escape and combine, rewinding only when the rune after the backslash is not
`u`, `x` or `U`; finally encode to UTF-8. -/
def read_hex_escape_sequence (length : Nat) (s : utf8_reader) :
    Except String (List Byte) × utf8_reader :=
  match read_hex_sequence length s with
  | (.error e, s) => (.error e, s)
  | (.ok code_point, s) =>
    if is_utf16_high_surrogate code_point then
      let original_position := s.pos
      match read_one [92] s with
      | (true, s1) =>
        match read_any [[117], [120], [85]] s1 with
        | (some next, s2) =>
          let low_len : Nat := if next = [117] then 4 else if next = [120] then 2 else 8
          match read_hex_sequence low_len s2 with
          | (.error e, s3) => (.error e, s3)
          | (.ok low_code_point, s3) =>
            (code_point_to_utf8 (utf16_surrogates_to_code_point code_point low_code_point), s3)
        | (none, s2) =>
          (code_point_to_utf8 code_point, ⟨s2.data, original_position⟩)
      | (false, s1) => (code_point_to_utf8 code_point, s1)
    else
      (code_point_to_utf8 code_point, s)

/-- Embeds `jsonh_reader::read_escape_sequence`.  Note that the C++ source
returns the literal `"\0"` for the `\0` escape, which as a
`const char*`-constructed `std::string` is the empty string. -/
def read_escape_sequence (s : utf8_reader) : Except String (List Byte) × utf8_reader :=
  match s.read with
  | Option.none => (.error ("Expected escape sequence, got end of input"), s)
  | Option.some (escape_char, s) =>
    if escape_char = [92] then (.ok [92], s)
    else if escape_char = [98] then (.ok [8], s)
    else if escape_char = [102] then (.ok [12], s)
    else if escape_char = [110] then (.ok [10], s)
    else if escape_char = [114] then (.ok [13], s)
    else if escape_char = [116] then (.ok [9], s)
    else if escape_char = [118] then (.ok [11], s)
    else if escape_char = [48] then (.ok [], s)
    else if escape_char = [97] then (.ok [7], s)
    else if escape_char = [101] then (.ok [27], s)
    else if escape_char = [117] then read_hex_escape_sequence 4 s
    else if escape_char = [120] then read_hex_escape_sequence 2 s
    else if escape_char = [85] then read_hex_escape_sequence 8 s
    else if newline_runes.contains escape_char then
      if escape_char = [13] then (.ok [], (read_one [10] s).2)
      else (.ok [], s)
    else (.ok escape_char, s)

end escapes

section leaf_lexers

/-! ### Leaf lexers (`jsonh_reader.hpp`): comments, whitespace, strings,
quoteless strings, numbers.  Each internal `while` loop takes a fuel
argument; callers supply `rfuel`, which exceeds the number of iterations of
every loop that consumes at least one byte per iteration. -/

open utf8_reader

/-- The loop of `jsonh_reader::read_whitespace`. -/
def read_whitespace_loop : Nat → utf8_reader → utf8_reader
  | 0, s => s
  | n + 1, s =>
    match s.peek with
    | Option.none => s
    | Option.some next =>
      if whitespace_runes.contains next then read_whitespace_loop n s.read_skip
      else s

/-- Embeds `jsonh_reader::read_whitespace`. -/
def read_whitespace (s : utf8_reader) : utf8_reader :=
  read_whitespace_loop s.rfuel s

/-- The comment-body loop of `jsonh_reader::read_comment`. -/
def read_comment_loop : Nat → Bool → List Byte → utf8_reader → TokenResult × utf8_reader
  | 0, _, _, s => (.error ("Ran out of fuel"), s)
  | n + 1, block_comment, comment_builder, s =>
    match s.read with
    | Option.none =>
      if block_comment then
        (.error ("Expected end of block comment, got end of input"), s)
      else
        (.ok ⟨.comment, comment_builder⟩, s)
    | Option.some (next, s') =>
      if block_comment then
        if next = [42] then
          match read_one [47] s' with
          | (true, s'') => (.ok ⟨.comment, comment_builder⟩, s'')
          | (false, s'') => read_comment_loop n block_comment (comment_builder ++ next) s''
        else
          read_comment_loop n block_comment (comment_builder ++ next) s'
      else
        if newline_runes.contains next then (.ok ⟨.comment, comment_builder⟩, s')
        else read_comment_loop n block_comment (comment_builder ++ next) s'

/-- Embeds `jsonh_reader::read_comment`. -/
def read_comment (s : utf8_reader) : TokenResult × utf8_reader :=
  match read_one [35] s with
  | (true, s) => read_comment_loop s.rfuel false [] s
  | (false, s) =>
    match read_one [47] s with
    | (true, s) =>
      match read_one [47] s with
      | (true, s) => read_comment_loop s.rfuel false [] s
      | (false, s) =>
        match read_one [42] s with
        | (true, s) => read_comment_loop s.rfuel true [] s
        | (false, s) => (.error ("Unexpected `/`"), s)
    | (false, s) => (.error ("Unexpected character"), s)

/-- The loop of `jsonh_reader::read_comments_and_whitespace`. -/
def read_comments_and_whitespace_loop :
    Nat → utf8_reader → List TokenResult × utf8_reader
  | 0, s => ([], s)
  | n + 1, s =>
    let s := read_whitespace s
    match s.peek with
    | Option.none => ([], s)
    | Option.some next =>
      if next = [35] ∨ next = [47] then
        let (c, s) := read_comment s
        let (rest, s) := read_comments_and_whitespace_loop n s
        (c :: rest, s)
      else ([], s)

/-- Embeds `jsonh_reader::read_comments_and_whitespace`. -/
def read_comments_and_whitespace (s : utf8_reader) : List TokenResult × utf8_reader :=
  read_comments_and_whitespace_loop s.rfuel s

end leaf_lexers

section dedent

/-! ### The multi-quoted-string dedent (`jsonh_reader::read_string`,
the five passes applied when `start_quote_counter > 1`).

The passes build auxiliary `utf8_reader`s over the collected string body.
Note two faithfulness points taken directly from the source:
* the `peek() == "\n"` calls inside passes 1 and 2 invoke the *outer*
  reader's `peek` (the member function of `jsonh_reader`), not the
  auxiliary reader's, so the CR-LF joining consults the main input stream;
* the pass-5 erasures use byte positions of the auxiliary reader, which
  iterates the pass-4 result, while the erasures are applied to the evolving
  string. -/

open utf8_reader

/-- Pass 1: scan leading whitespace for a newline; on success, the second
component is the byte count through that newline. -/
def dedent_pass1 : Nat → utf8_reader → utf8_reader → Bool × Nat
  | 0, _, _ => (false, 0)
  | n + 1, r1, outer =>
    let index := r1.pos
    match r1.read with
    | Option.none => (false, 0)
    | Option.some (next, r1') =>
      if newline_runes.contains next then
        if next = [13] ∧ outer.peek = some [10] then
          let r1'' := r1'.read_skip
          (true, r1''.pos + 1)
        else
          (true, index + 1)
      else if whitespace_runes.contains next then
        dedent_pass1 n r1' outer
      else
        (false, 0)

/-- Pass 2: scan the whole body; the result is
`(has_trailing_newline_whitespace, last_newline_index,
trailing_whitespace_counter)`. -/
def dedent_pass2 : Nat → utf8_reader → utf8_reader → Bool × Nat × Nat → Bool × Nat × Nat
  | 0, _, _, acc => acc
  | n + 1, r2, outer, (has, last, t) =>
    let index := r2.pos
    match r2.read with
    | Option.none => (has, last, t)
    | Option.some (next, r2') =>
      if newline_runes.contains next then
        if next = [13] ∧ outer.peek = some [10] then
          dedent_pass2 n r2'.read_skip outer (true, index, 0)
        else
          dedent_pass2 n r2' outer (true, index, 0)
      else if whitespace_runes.contains next then
        dedent_pass2 n r2' outer (has, last, t + 1)
      else
        dedent_pass2 n r2' outer (false, last, 0)

/-- Pass 5: strip up to `t` leading whitespace runes from each line.  `r3`
iterates the pass-4 result; `sb` is the evolving string being erased. -/
def dedent_pass5 : Nat → utf8_reader → Nat → List Byte → Bool → Nat → List Byte
  | 0, _, _, sb, _, _ => sb
  | n + 1, r3, t, sb, is_lead, cnt =>
    let index := r3.pos
    match r3.read with
    | Option.none => sb
    | Option.some (next, r3') =>
      if newline_runes.contains next then
        dedent_pass5 n r3' t sb true 0
      else if whitespace_runes.contains next then
        if is_lead then
          let cnt := cnt + 1
          if cnt = t then
            dedent_pass5 n r3' t (list_erase sb (index + 1 - cnt) cnt) false cnt
          else
            dedent_pass5 n r3' t sb is_lead cnt
        else
          dedent_pass5 n r3' t sb is_lead cnt
      else
        if is_lead then
          dedent_pass5 n r3' t (list_erase sb (index - cnt) cnt) false cnt
        else
          dedent_pass5 n r3' t sb is_lead cnt

/-- The multi-quoted-string dedent of `jsonh_reader::read_string`: the five
conditional passes applied to the collected body `sb`, with `outer` the main
input reader positioned just after the closing quotes (consulted by the
CR-LF joins). -/
def multiline_dedent (outer : utf8_reader) (sb : List Byte) : List Byte :=
  let (has1, l) := dedent_pass1 (sb.length + 1) (mk0 sb) outer
  if has1 then
    let (has2, last, t) := dedent_pass2 (sb.length + 1) (mk0 sb) outer (false, 0, 0)
    if has2 then
      let sb := sb.take last
      let sb := sb.drop l
      if 0 < t then
        dedent_pass5 (sb.length + 1) (mk0 sb) t sb true 0
      else sb
    else sb
  else sb

end dedent

section string_lexers

open utf8_reader

/-- The body-collection loop of `jsonh_reader::read_string`: read runes
until `start_quote_counter` consecutive start quotes; a backslash starts an
escape sequence; a partial run of end quotes is literal. -/
def read_string_loop (start_quote : Rune) (quote_char : Byte) (start_quote_counter : Nat) :
    Nat → Nat → List Byte → utf8_reader → Except String (List Byte) × utf8_reader
  | 0, _, _, s => (.error ("Ran out of fuel"), s)
  | n + 1, end_quote_counter, string_builder, s =>
    match s.read with
    | Option.none => (.error ("Expected end of string, got end of input"), s)
    | Option.some (next, s') =>
      let (string_builder, end_quote_counter) :=
        if next ≠ start_quote then
          (string_builder ++ List.replicate end_quote_counter quote_char, 0)
        else (string_builder, end_quote_counter)
      if next = start_quote then
        let end_quote_counter := end_quote_counter + 1
        if end_quote_counter = start_quote_counter then (.ok string_builder, s')
        else read_string_loop start_quote quote_char start_quote_counter n
          end_quote_counter string_builder s'
      else if next = [92] then
        match read_escape_sequence s' with
        | (.error e, s'') => (.error e, s'')
        | (.ok bytes, s'') =>
          read_string_loop start_quote quote_char start_quote_counter n
            end_quote_counter (string_builder ++ bytes) s''
      else
        read_string_loop start_quote quote_char start_quote_counter n
          end_quote_counter (string_builder ++ next) s'

/-- The start-quote counting loop of `jsonh_reader::read_string`. -/
def count_start_quotes (start_quote : Rune) : Nat → Nat → utf8_reader → Nat × utf8_reader
  | 0, counter, s => (counter, s)
  | n + 1, counter, s =>
    match read_one start_quote s with
    | (true, s') => count_start_quotes start_quote n (counter + 1) s'
    | (false, s') => (counter, s')

/-- The leading-whitespace trim loop of `jsonh_reader::read_quoteless_string`:
returns the byte count `original_position` at which the first non-whitespace
rune (or the end) is reached. -/
def quoteless_ltrim : Nat → utf8_reader → Nat
  | 0, r => r.pos
  | n + 1, r =>
    let original_position := r.pos
    match r.read with
    | Option.none => original_position
    | Option.some (next, r') =>
      if whitespace_runes.contains next then quoteless_ltrim n r'
      else original_position

/-- The trailing-whitespace trim loop of
`jsonh_reader::read_quoteless_string`: walk backwards with `read_reverse`
and return the byte position after the last rune that is not trailing
whitespace.  (`read_reverse` yields a multi-byte rune's bytes in reversed
order, so a multi-byte whitespace rune never matches the whitespace set.) -/
def quoteless_rtrim : Nat → utf8_reader → Nat
  | 0, r => r.pos
  | n + 1, r =>
    let original_position := r.pos
    match r.read_reverse with
    | Option.none => original_position
    | Option.some (last, r') =>
      if whitespace_runes.contains last then quoteless_rtrim n r'
      else original_position

/-- The accumulation loop of `jsonh_reader::read_quoteless_string`: read
runes until a reserved rune, a newline or the end; a backslash starts an
escape sequence (and forfeits named-literal matching). -/
def read_quoteless_loop :
    Nat → Bool → List Byte → utf8_reader → Except String (Bool × List Byte) × utf8_reader
  | 0, _, _, s => (.error ("Ran out of fuel"), s)
  | n + 1, is_named_literal_possible, string_builder, s =>
    match s.peek with
    | Option.none => (.ok (is_named_literal_possible, string_builder), s)
    | Option.some next =>
      if next = [92] then
        match read_escape_sequence s.read_skip with
        | (.error e, s') => (.error e, s')
        | (.ok bytes, s') =>
          read_quoteless_loop n false (string_builder ++ bytes) s'
      else if reserved_runes.contains next then
        (.ok (is_named_literal_possible, string_builder), s)
      else if newline_runes.contains next then
        (.ok (is_named_literal_possible, string_builder), s)
      else
        read_quoteless_loop n is_named_literal_possible (string_builder ++ next) s.read_skip

/-- Embeds `jsonh_reader::read_quoteless_string`. -/
def read_quoteless_string (initial_chars : List Byte) (s : utf8_reader) :
    TokenResult × utf8_reader :=
  match read_quoteless_loop s.rfuel true initial_chars s with
  | (.error e, s) => (.error e, s)
  | (.ok (is_named_literal_possible, string_builder), s) =>
    if string_builder.isEmpty then
      (.error ("Empty quoteless string"), s)
    else
      let string_builder :=
        string_builder.drop (quoteless_ltrim (string_builder.length + 1) (mk0 string_builder))
      let string_builder :=
        string_builder.take
          (quoteless_rtrim (string_builder.length + 1) (seek_end (mk0 string_builder)))
      if is_named_literal_possible ∧ string_builder = [110, 117, 108, 108] then
        (.ok ⟨.null, []⟩, s)
      else if is_named_literal_possible ∧ string_builder = [116, 114, 117, 101] then
        (.ok ⟨.true_bool, []⟩, s)
      else if is_named_literal_possible ∧ string_builder = [102, 97, 108, 115, 101] then
        (.ok ⟨.false_bool, []⟩, s)
      else
        (.ok ⟨.string, string_builder⟩, s)

/-- Embeds `jsonh_reader::read_string`. -/
def read_string (s : utf8_reader) : TokenResult × utf8_reader :=
  match read_any [[34], [39]] s with
  | (Option.none, s) => read_quoteless_string [] s
  | (Option.some start_quote, s) =>
    let quote_char := start_quote.headI
    let (start_quote_counter, s) := count_start_quotes start_quote s.rfuel 1 s
    if start_quote_counter = 2 then
      (.ok ⟨.string, []⟩, s)
    else
      match read_string_loop start_quote quote_char start_quote_counter s.rfuel 0 [] s with
      | (.error e, s) => (.error e, s)
      | (.ok string_builder, s) =>
        let string_builder :=
          if 1 < start_quote_counter then multiline_dedent s string_builder
          else string_builder
        (.ok ⟨.string, string_builder⟩, s)

end string_lexers

section number_lexer

open utf8_reader

/-- The digit loop of `jsonh_reader::read_number_no_exponent`.  The builder
is returned alongside the verdict (the C++ accumulates into a by-reference
builder even on failure). -/
def read_number_digits :
    Nat → List Byte → Bool → List Byte → utf8_reader →
      (Except String Unit × List Byte) × utf8_reader
  | 0, _, _, builder, s => ((.ok (), builder), s)
  | n + 1, base_digits, is_fraction, builder, s =>
    match s.peek with
    | Option.none => ((.ok (), builder), s)
    | Option.some next =>
      if bytes_has_substring (to_ascii_lower next) base_digits then
        read_number_digits n base_digits is_fraction (builder ++ next) s.read_skip
      else if next = [46] then
        let builder := builder ++ next
        if is_fraction then ((.error ("Duplicate `.` in number"), builder), s.read_skip)
        else read_number_digits n base_digits true builder s.read_skip
      else if next = [95] then
        read_number_digits n base_digits is_fraction (builder ++ next) s.read_skip
      else
        ((.ok (), builder), s)

/-- Embeds `jsonh_reader::read_number_no_exponent`: the digit loop followed
by the emptiness, digit-presence and trailing-underscore checks
(the builder accumulates across calls, so the checks see the sign and base
prefix as well). -/
def read_number_no_exponent (number_builder : List Byte)
    (base_digits : List Byte) (has_base_specifier : Bool) (s : utf8_reader) :
    (Except String Unit × List Byte) × utf8_reader :=
  if ¬has_base_specifier ∧ s.peek = some [95] then
    ((.error ("Leading `_` in number"), number_builder), s)
  else
    match read_number_digits s.rfuel base_digits false number_builder s with
    | ((.error e, number_builder), s) => ((.error e, number_builder), s)
    | ((.ok _, number_builder), s) =>
      if number_builder.isEmpty then
        ((.error ("Empty number"), number_builder), s)
      else if number_builder.all (fun b => b = 46 ∨ b = 45 ∨ b = 43 ∨ b = 95) then
        ((.error ("Number must have at least one digit"), number_builder), s)
      else if number_builder.getLast? = some 95 then
        ((.error ("Trailing `_` in number"), number_builder), s)
      else
        ((.ok (), number_builder), s)

/-- Embeds `jsonh_reader::read_number`.  The result carries the builder even
on failure (the C++ passes it by reference), for the quoteless fallback. -/
def read_number (s : utf8_reader) : (TokenResult × List Byte) × utf8_reader :=
  let (sign, s) := read_any [[45], [43]] s
  let number_builder : List Byte := match sign with | some r => r | none => []
  let (zero, s) := read_one [48] s
  let (number_builder, base_digits, has_base_specifier, s) :=
    if zero then
      let number_builder := number_builder ++ [48]
      match read_any [[120], [88]] s with
      | (some r, s) => (number_builder ++ r, base16_digits, true, s)
      | (none, s) =>
        match read_any [[98], [66]] s with
        | (some r, s) => (number_builder ++ r, base2_digits, true, s)
        | (none, s) =>
          match read_any [[111], [79]] s with
          | (some r, s) => (number_builder ++ r, base8_digits, true, s)
          | (none, s) => (number_builder, base10_digits, false, s)
    else (number_builder, base10_digits, false, s)
  match read_number_no_exponent number_builder base_digits has_base_specifier s with
  | ((.error e, number_builder), s) => ((.error e, number_builder), s)
  | ((.ok _, number_builder), s) =>
    if number_builder.getLast? = some 101 ∨ number_builder.getLast? = some 69 then
      match read_any [[43], [45]] s with
      | (some exponent_sign, s) =>
        let number_builder := number_builder ++ exponent_sign
        match read_number_no_exponent number_builder base_digits has_base_specifier s with
        | ((.error e, number_builder), s) => ((.error e, number_builder), s)
        | ((.ok _, number_builder), s) => ((.ok ⟨.number, number_builder⟩, number_builder), s)
      | (none, s) => ((.ok ⟨.number, number_builder⟩, number_builder), s)
    else
      match read_any [[101], [69]] s with
      | (some exponent_char, s) =>
        let number_builder := number_builder ++ exponent_char
        let (exponent_sign, s) := read_any [[45], [43]] s
        let number_builder :=
          match exponent_sign with
          | some r => number_builder ++ r
          | none => number_builder
        match read_number_no_exponent number_builder base_digits has_base_specifier s with
        | ((.error e, number_builder), s) => ((.error e, number_builder), s)
        | ((.ok _, number_builder), s) => ((.ok ⟨.number, number_builder⟩, number_builder), s)
      | (none, s) => ((.ok ⟨.number, number_builder⟩, number_builder), s)

/-- The whitespace loop of `jsonh_reader::detect_quoteless_string`. -/
def detect_quoteless_loop : Nat → List Byte → utf8_reader → (Option Bool × List Byte) × utf8_reader
  | 0, wsb, s => ((none, wsb), s)
  | n + 1, wsb, s =>
    match s.peek with
    | Option.none => ((none, wsb), s)
    | Option.some next =>
      if newline_runes.contains next then ((some false, wsb), s)
      else if ¬whitespace_runes.contains next then ((none, wsb), s)
      else detect_quoteless_loop n (wsb ++ next) s.read_skip

/-- Embeds `jsonh_reader::detect_quoteless_string`. -/
def detect_quoteless_string (s : utf8_reader) : (Bool × List Byte) × utf8_reader :=
  match detect_quoteless_loop s.rfuel [] s with
  | ((some early, wsb), s) => ((early, wsb), s)
  | ((none, wsb), s) =>
    match s.peek with
    | Option.none => ((false, wsb), s)
    | Option.some next_char =>
      ((next_char = [92] || !(reserved_runes.contains next_char), wsb), s)

/-- Embeds `jsonh_reader::read_number_or_quoteless_string`. -/
def read_number_or_quoteless_string (s : utf8_reader) : TokenResult × utf8_reader :=
  match read_number s with
  | ((.ok number, _), s) =>
    match detect_quoteless_string s with
    | ((true, whitespace_chars), s) =>
      read_quoteless_string (number.value ++ whitespace_chars) s
    | ((false, _), s) => (.ok number, s)
  | ((.error _, number_builder), s) => read_quoteless_string number_builder s

/-- Embeds `jsonh_reader::read_primitive_element`. -/
def read_primitive_element (s : utf8_reader) : TokenResult × utf8_reader :=
  match s.peek with
  | Option.none => (.error ("Expected primitive element, got end of input"), s)
  | Option.some next =>
    if (bytes_le [48] next ∧ bytes_le next [57]) ∨ next = [45] ∨ next = [43] ∨ next = [46] then
      read_number_or_quoteless_string s
    else if next = [34] ∨ next = [39] then
      read_string s
    else
      read_quoteless_string [] s

end number_lexer

section element_productions

/-! ### The element-level productions (`jsonh_reader.hpp`)

Every production materialises a `std::vector` of token results and iterates
sub-results with the pattern
`for (token : sub) { if (!token) { tokens.push_back(token); return tokens; } tokens.push_back(token); }`.
`forward_tokens` encodes exactly that loop: when the sub-result contains a
failure, the emission is the sub-result's prefix up to and including its
first failure and the production returns; otherwise the whole sub-result is
emitted and the production continues.  `append_cut` is the same pattern when
nothing follows the loop. -/

open utf8_reader

/-- The prefix of a token-result list up to and including its first failure,
or `none` when it has no failure. -/
def first_error_cut : List TokenResult → Option (List TokenResult)
  | [] => none
  | .ok t :: rest => (first_error_cut rest).map (fun pre => .ok t :: pre)
  | .error e :: _ => some [.error e]

/-- The iterate-and-forward loop over a sub-result (see the section
comment). -/
def forward_tokens (sub : List TokenResult) (s : utf8_reader)
    (k : utf8_reader → List TokenResult × utf8_reader) :
    List TokenResult × utf8_reader :=
  match first_error_cut sub with
  | some pre => (pre, s)
  | none =>
    let (rest, s') := k s
    (sub ++ rest, s')

/-- The iterate-and-forward loop when the loop is followed directly by
`return tokens`. -/
def append_cut (sub : List TokenResult) : List TokenResult :=
  (first_error_cut sub).getD sub

/-- The successful tokens preceding the first failure, paired with the
failure when there is one (the braceless-object detection in
`read_element` collects these). -/
def first_error_split : List TokenResult → List jsonh_token × Option String
  | [] => ([], none)
  | .ok t :: rest =>
    let (oks, e) := first_error_split rest
    (t :: oks, e)
  | .error e :: _ => ([], some e)

/-- Embeds `jsonh_reader::read_property_name`: an optional already-read
string, comments and whitespace, then the mandatory `:`. -/
def read_property_name (string? : Option (List Byte)) (s : utf8_reader) :
    List TokenResult × utf8_reader :=
  match string? with
  | some string => read_property_name_rest string s
  | none =>
    match read_string s with
    | (.error e, s) => ([.error e], s)
    | (.ok string_token, s) => read_property_name_rest string_token.value s
where
  read_property_name_rest (string : List Byte) (s : utf8_reader) :
      List TokenResult × utf8_reader :=
    let (cw, s) := read_comments_and_whitespace s
    forward_tokens cw s fun s =>
      match read_one [58] s with
      | (false, s) => ([.error ("Expected `:` after property name in object")], s)
      | (true, s) => ([.ok ⟨.property_name, string⟩], s)

/-- The entry points of the mutually recursive element-level productions of
`jsonh_reader`: the productions themselves plus the bodies of their
`while (true)` loops. -/
inductive call where
  | element
  | object
  | object_loop
  | braceless (property_name_tokens : Option (List jsonh_token))
  | braceless_loop
  | property (property_name_tokens : Option (List jsonh_token))
  | array
  | array_loop
  | item
deriving Repr

/-- Embeds `jsonh_reader::read_element` (body; `step` is the recursive
continuation). -/
def read_element_F (step : call → utf8_reader → List TokenResult × utf8_reader)
    (s : utf8_reader) : List TokenResult × utf8_reader :=
  let (cw, s) := read_comments_and_whitespace s
  forward_tokens cw s fun s =>
    match s.peek with
    | Option.none => ([.error ("Expected token, got end of input")], s)
    | Option.some next =>
      if next = [123] then
        let (ts, s) := step .object s
        (append_cut ts, s)
      else if next = [91] then
        let (ts, s) := step .array s
        (append_cut ts, s)
      else
        match read_primitive_element s with
        | (.error e, s) => ([.error e], s)
        | (.ok token, s) =>
          if token.json_type = json_token_type.string then
            let (pnts, s) := read_property_name (some token.value) s
            let (oks, err?) := first_error_split pnts
            match err? with
            | Option.none =>
              let (ts, s) := step (.braceless (some oks)) s
              (append_cut ts, s)
            | Option.some _ =>
              -- Error reading the property name: the C++ emits the primitive
              -- string token and returns; when comment tokens were collected
              -- before the failure it then iterates `property_name_tokens`
              -- while appending to it, which never terminates (modelled as a
              -- final failure entry, like fuel exhaustion).
              ([.ok token] ++
                (if oks.isEmpty then [] else [.error ("Ran out of fuel")]), s)
          else
            ([.ok token], s)

/-- Embeds `jsonh_reader::read_object` (opening brace or braceless
fallback, then the object loop). -/
def read_object_F (step : call → utf8_reader → List TokenResult × utf8_reader)
    (s : utf8_reader) : List TokenResult × utf8_reader :=
  match read_one [123] s with
  | (false, s) =>
    let (ts, s) := step (.braceless none) s
    (append_cut ts, s)
  | (true, s) =>
    let (ts, s) := step .object_loop s
    (.ok ⟨.start_object, []⟩ :: ts, s)

/-- The `while (true)` loop of `jsonh_reader::read_object`. -/
def read_object_loop_F (incomplete_inputs : Bool)
    (step : call → utf8_reader → List TokenResult × utf8_reader)
    (s : utf8_reader) : List TokenResult × utf8_reader :=
  let (cw, s) := read_comments_and_whitespace s
  forward_tokens cw s fun s =>
    match s.peek with
    | Option.none =>
      if incomplete_inputs then ([.ok ⟨.end_object, []⟩], s)
      else ([.error ("Expected `\x7d` to end object, got end of input")], s)
    | Option.some next =>
      if next = [125] then
        ([.ok ⟨.end_object, []⟩], s.read_skip)
      else
        let (pts, s) := step (.property none) s
        forward_tokens pts s fun s => step .object_loop s

/-- Embeds `jsonh_reader::read_braceless_object`. -/
def read_braceless_object_F (step : call → utf8_reader → List TokenResult × utf8_reader)
    (property_name_tokens : Option (List jsonh_token))
    (s : utf8_reader) : List TokenResult × utf8_reader :=
  match property_name_tokens with
  | Option.none =>
    let (ts, s) := step .braceless_loop s
    (.ok ⟨.start_object, []⟩ :: ts, s)
  | Option.some pn =>
    let (pts, s) := step (.property (some pn)) s
    let (ts, s) := forward_tokens pts s fun s => step .braceless_loop s
    (.ok ⟨.start_object, []⟩ :: ts, s)

/-- The `while (true)` loop of `jsonh_reader::read_braceless_object`. -/
def read_braceless_loop_F (step : call → utf8_reader → List TokenResult × utf8_reader)
    (s : utf8_reader) : List TokenResult × utf8_reader :=
  let (cw, s) := read_comments_and_whitespace s
  forward_tokens cw s fun s =>
    match s.peek with
    | Option.none => ([.ok ⟨.end_object, []⟩], s)
    | Option.some _ =>
      let (pts, s) := step (.property none) s
      forward_tokens pts s fun s => step .braceless_loop s

/-- Embeds `jsonh_reader::read_property`. -/
def read_property_F (step : call → utf8_reader → List TokenResult × utf8_reader)
    (property_name_tokens : Option (List jsonh_token))
    (s : utf8_reader) : List TokenResult × utf8_reader :=
  let (pnts, s) :=
    match property_name_tokens with
    | Option.some pn => (pn.map (fun t => (.ok t : TokenResult)), s)
    | Option.none => read_property_name none s
  forward_tokens pnts s fun s =>
    let (cw, s) := read_comments_and_whitespace s
    forward_tokens cw s fun s =>
      let (ets, s) := step .element s
      forward_tokens ets s fun s =>
        let (cw2, s) := read_comments_and_whitespace s
        forward_tokens cw2 s fun s =>
          ([], (read_one [44] s).2)

/-- Embeds `jsonh_reader::read_array`. -/
def read_array_F (step : call → utf8_reader → List TokenResult × utf8_reader)
    (s : utf8_reader) : List TokenResult × utf8_reader :=
  match read_one [91] s with
  | (false, s) => ([.error ("Expected `[` to start array")], s)
  | (true, s) =>
    let (ts, s) := step .array_loop s
    (.ok ⟨.start_array, []⟩ :: ts, s)

/-- The `while (true)` loop of `jsonh_reader::read_array`. -/
def read_array_loop_F (incomplete_inputs : Bool)
    (step : call → utf8_reader → List TokenResult × utf8_reader)
    (s : utf8_reader) : List TokenResult × utf8_reader :=
  let (cw, s) := read_comments_and_whitespace s
  forward_tokens cw s fun s =>
    match s.peek with
    | Option.none =>
      if incomplete_inputs then ([.ok ⟨.end_array, []⟩], s)
      else ([.error ("Expected `]` to end array, got end of input")], s)
    | Option.some next =>
      if next = [93] then
        ([.ok ⟨.end_array, []⟩], s.read_skip)
      else
        let (its, s) := step .item s
        forward_tokens its s fun s => step .array_loop s

/-- Embeds `jsonh_reader::read_item`. -/
def read_item_F (step : call → utf8_reader → List TokenResult × utf8_reader)
    (s : utf8_reader) : List TokenResult × utf8_reader :=
  let (ets, s) := step .element s
  forward_tokens ets s fun s =>
    let (cw, s) := read_comments_and_whitespace s
    forward_tokens cw s fun s =>
      ([], (read_one [44] s).2)

/-- The fuel-indexed knot of the mutually recursive element-level
productions; running out of fuel yields a final failure entry. -/
def elementStep (opts : jsonh_reader_options) :
    Nat → call → utf8_reader → List TokenResult × utf8_reader
  | 0, _, s => ([.error ("Ran out of fuel")], s)
  | n + 1, c, s =>
    match c with
    | .element => read_element_F (elementStep opts n) s
    | .object => read_object_F (elementStep opts n) s
    | .object_loop => read_object_loop_F opts.incomplete_inputs (elementStep opts n) s
    | .braceless pn => read_braceless_object_F (elementStep opts n) pn s
    | .braceless_loop => read_braceless_loop_F (elementStep opts n) s
    | .property pn => read_property_F (elementStep opts n) pn s
    | .array => read_array_F (elementStep opts n) s
    | .array_loop => read_array_loop_F opts.incomplete_inputs (elementStep opts n) s
    | .item => read_item_F (elementStep opts n) s

/-- Embeds `jsonh_reader::read_element` on a fresh reader over `input`. -/
def read_element (fuel : Nat) (opts : jsonh_reader_options) (input : List Byte) :
    List TokenResult × utf8_reader :=
  elementStep opts fuel .element (utf8_reader.mk0 input)

end element_productions

section tree_builder

/-! ### The tree builder (`jsonh_reader::parse_element`)

The generic JSON container (`nlohmann::json`) is a value type: `start_node`
submits a copy of the new (empty) container into the parent and then pushes
another copy onto `current_nodes`. -/

/-- The generic JSON value (`nlohmann::json` as the reader observes it). -/
inductive json where
  | null
  | bool_val (b : Bool)
  | num (q : ℚ)
  | str (s : List Byte)
  | arr (items : List json)
  | obj (entries : List (List Byte × json))
deriving Repr

/-- `json::push_back` as used on the array at the top of `current_nodes`
(the token streams of `read_element` only append to arrays). -/
def json.push_back (j : json) (node : json) : json :=
  match j with
  | .arr items => .arr (items ++ [node])
  | other => other

/-- `json::operator[](key) = node` on an object: replace the value of an
existing key, otherwise insert. -/
def json.set_property (j : json) (key : List Byte) (node : json) : json :=
  match j with
  | .obj entries => .obj (set_entries entries key node)
  | other => other
where
  set_entries : List (List Byte × json) → List Byte → json → List (List Byte × json)
    | [], key, node => [(key, node)]
    | (k, v) :: rest, key, node =>
      if k = key then (k, node) :: rest
      else (k, v) :: set_entries rest key node

/-- `submit_node` of `jsonh_reader::parse_element`: `none` signals the
root-value case (empty stack), otherwise the updated stack and pending
property name are returned. -/
def submit_node (node : json) (current_nodes : List json)
    (current_property_name : Option (List Byte)) :
    Option (List json × Option (List Byte)) :=
  match current_nodes with
  | [] => none
  | top :: rest =>
    match current_property_name with
    | Option.none => some (top.push_back node :: rest, none)
    | Option.some name => some (top.set_property name node :: rest, none)

/-- `start_node` of `jsonh_reader::parse_element`: submit a copy of the new
container into the parent, then push another copy. -/
def start_node (node : json) (current_nodes : List json)
    (current_property_name : Option (List Byte)) :
    List json × Option (List Byte) :=
  match submit_node node current_nodes current_property_name with
  | Option.none => (node :: current_nodes, current_property_name)
  | Option.some (nodes, pname) => (node :: nodes, pname)

/-- The token-consuming loop of `jsonh_reader::parse_element`. -/
def parse_element_tokens :
    List TokenResult → List json → Option (List Byte) → Except String json
  | [], _, _ => .error ("Expected token, got end of input")
  | token_result :: rest, current_nodes, current_property_name =>
    match token_result with
    | .error e => .error e
    | .ok token =>
      match token.json_type with
      | .null =>
        match submit_node .null current_nodes current_property_name with
        | Option.none => .ok .null
        | Option.some (nodes, pname) => parse_element_tokens rest nodes pname
      | .true_bool =>
        match submit_node (.bool_val true) current_nodes current_property_name with
        | Option.none => .ok (.bool_val true)
        | Option.some (nodes, pname) => parse_element_tokens rest nodes pname
      | .false_bool =>
        match submit_node (.bool_val false) current_nodes current_property_name with
        | Option.none => .ok (.bool_val false)
        | Option.some (nodes, pname) => parse_element_tokens rest nodes pname
      | .string =>
        match submit_node (.str token.value) current_nodes current_property_name with
        | Option.none => .ok (.str token.value)
        | Option.some (nodes, pname) => parse_element_tokens rest nodes pname
      | .number =>
        match jsonh_number_parse token.value with
        | .error e => .error e
        | .ok q =>
          match submit_node (.num q) current_nodes current_property_name with
          | Option.none => .ok (.num q)
          | Option.some (nodes, pname) => parse_element_tokens rest nodes pname
      | .start_object =>
        let (nodes, pname) := start_node (.obj []) current_nodes current_property_name
        parse_element_tokens rest nodes pname
      | .start_array =>
        let (nodes, pname) := start_node (.arr []) current_nodes current_property_name
        parse_element_tokens rest nodes pname
      | .end_object | .end_array =>
        match current_nodes with
        | _ :: second :: others =>
          parse_element_tokens rest (second :: others) current_property_name
        | [top] => .ok top
        | [] => .error ("Token type not implemented")
      | .property_name =>
        parse_element_tokens rest current_nodes (some token.value)
      | .comment =>
        parse_element_tokens rest current_nodes current_property_name
      | .none => .error ("Token type not implemented")

/-- Embeds `jsonh_reader::parse_element` (the generic-`json` overload) on a
fresh reader over `input`. -/
def parse_element (fuel : Nat) (opts : jsonh_reader_options) (input : List Byte) :
    Except String json :=
  parse_element_tokens (read_element fuel opts input).1 [] none

end tree_builder

section claim_inputs

/-! ### Concrete inputs used by the claim theorems (ASCII / UTF-8 bytes) -/

/-- The default-constructed `jsonh_reader_options`. -/
def default_options : jsonh_reader_options := {}

/-- The bytes of the JSON document `{"a": {"b": 1}}`. -/
def nested_object_input : List Byte :=
  [123, 34, 97, 34, 58, 32, 123, 34, 98, 34, 58, 32, 49, 125, 125]

/-- The bytes of the JSONH document `[[[]]]` (container depth 3). -/
def depth3_input : List Byte := [91, 91, 91, 93, 93, 93]

/-- The bytes after `\` of the escape text `uD83DA`: a high surrogate
followed by an escape whose code point is not a low surrogate. -/
def high_then_nonlow_input : List Byte :=
  [117, 68, 56, 51, 68, 92, 117, 48, 48, 52, 49]

/-- The bytes after `\` of the escape text `uD83D\uDC7D`: a high surrogate
followed by a low surrogate. -/
def high_then_low_input : List Byte :=
  [117, 68, 56, 51, 68, 92, 117, 68, 67, 55, 68]

/-- The bytes of the numeric literal `0x5e3`. -/
def hex_no_sign_input : List Byte := [48, 120, 53, 101, 51]

/-- The bytes of the numeric literal `0x5e+3`. -/
def hex_signed_exp_input : List Byte := [48, 120, 53, 101, 43, 51]

/-- The bytes of the JSONH document `a b: c d`. -/
def braceless_input : List Byte := [97, 32, 98, 58, 32, 99, 32, 100]

/-- The bytes of the JSONH document `a: b, c: d`. -/
def braceless_two_input : List Byte := [97, 58, 32, 98, 44, 32, 99, 58, 32, 100]

/-- The bytes of the JSONH document `abc` (a string not followed by `:`). -/
def plain_string_input : List Byte := [97, 98, 99]

/-- The bytes `a` U+00A0 `,`: a quoteless string with trailing multi-byte
whitespace, terminated by a reserved rune. -/
def nbsp_quoteless_input : List Byte := [97, 194, 160, 44]

/-- The bytes of the JSONH document `[nulla, null b, null]`. -/
def nulla_input : List Byte :=
  [91, 110, 117, 108, 108, 97, 44, 32, 110, 117, 108, 108, 32, 98, 44, 32,
   110, 117, 108, 108, 93]

end claim_inputs

/-- C1: the spec claims `parse(serialise(x)) == x` for every JSON value
`x`, in particular for `{"a": {"b": 1}}`.  The code violates this:
`start_node` submits a copy of each new container into its parent before
pushing a separate copy onto the stack, so the contents of nested
containers are lost — parsing `{"a": {"b": 1}}` returns `{"a": {}}`.
This theorem evaluates `parse_element` at the failing input. -/
theorem C1_parse_element_drops_nested_contents :
    parse_element 64 default_options nested_object_input =
      .ok (json.obj [([97], json.obj [])]) := by
  rfl

/-- C3: the spec claims the tree builder fails with `Exceeded max depth`
when a pushed container would exceed `max_depth`.  The code never reads
`options.max_depth`: with `max_depth := 2`, parsing the depth-3 document
`[[[]]]` succeeds (returning a value, with the innermost level lost to the
copy bug of C1) instead of failing. -/
theorem C3_max_depth_not_enforced :
    parse_element 64 { max_depth := 2 } depth3_input =
      .ok (json.arr [json.arr []]) := by
  rfl

/-- C5: the spec claims a high surrogate is combined with a following
hex escape only when the second code point is low-surrogate-valued, and
that the reader rewinds otherwise.  The code checks only that the rune
after the backslash is `u`, `x` or `U` and then combines unconditionally:
`\uD83DA` wraps around in `unsigned int` arithmetic to the code point
U+F441 (bytes `EF 91 81`) instead of rewinding.  The claimed example
`👽` does decode to U+1F47D (bytes `F0 9F 91 BD`). -/
theorem C5_surrogate_pairing_skips_low_check :
    (read_escape_sequence (utf8_reader.mk0 high_then_nonlow_input)).1 =
        .ok [239, 145, 129] ∧
      (read_escape_sequence (utf8_reader.mk0 high_then_low_input)).1 =
        .ok [240, 159, 145, 189] ∧
      utf16_surrogates_to_code_point 0xD83D 0x0041 = 0xF441 := by
  exact ⟨rfl, rfl, rfl⟩

/-- C6: with a hexadecimal base prefix, `e`/`E` is an exponent marker only
when immediately followed by `+` or `-`, and otherwise a hex digit:
`jsonh_number_parse "0x5e3" = 1507` and `jsonh_number_parse "0x5e+3" = 5000`.
The first two conjuncts exhibit the exponent-marker search itself. -/
theorem C6_hex_exponent_needs_sign :
    find_exponent_index [53, 101, 51] base16_digits = none ∧
      find_exponent_index [53, 101, 43, 51] base16_digits = some 1 ∧
      jsonh_number_parse hex_no_sign_input = .ok 1507 ∧
      jsonh_number_parse hex_signed_exp_input = .ok 5000 := by
  exact ⟨rfl, rfl, by with_unfolding_all rfl, by with_unfolding_all rfl⟩

/-- C7: a top-level primitive string followed (after comments/whitespace)
by `:` promotes the top level to a braceless object — `StartObject`, the
`PropertyName` carrying that string, the property value, further properties
until end-of-input, then `EndObject` — while a top-level string not
followed by `:` is emitted as a plain `String` element.  Evaluated on
`a b: c d` (one property), `a: b, c: d` (two properties), and `abc`. -/
theorem C7_braceless_object_promotion :
    (read_element 64 default_options braceless_input).1 =
        [.ok ⟨.start_object, []⟩, .ok ⟨.property_name, [97, 32, 98]⟩,
         .ok ⟨.string, [99, 32, 100]⟩, .ok ⟨.end_object, []⟩] ∧
      (read_element 64 default_options braceless_two_input).1 =
        [.ok ⟨.start_object, []⟩, .ok ⟨.property_name, [97]⟩,
         .ok ⟨.string, [98]⟩, .ok ⟨.property_name, [99]⟩,
         .ok ⟨.string, [100]⟩, .ok ⟨.end_object, []⟩] ∧
      (read_element 64 default_options plain_string_input).1 =
        [.ok ⟨.string, [97, 98, 99]⟩] := by
  exact ⟨rfl, rfl, rfl⟩

/-- C8: the spec claims the quoteless-string scanner trims leading and
trailing whitespace runes including multi-byte whitespace such as U+00A0.
The code's trailing trim walks backwards with `read_reverse`, which returns
a multi-byte rune's bytes in reversed order (the reversing step of
`read_reverse` is only reached on the path that returns `std::nullopt`),
so trailing multi-byte whitespace never matches the whitespace set and is
kept: the quoteless text `a` U+00A0 lexes to the string `a` U+00A0.  The
claimed example `[nulla, null b, null]` does parse as
`["nulla", "null b", null]`. -/
theorem C8_trailing_multibyte_whitespace_kept :
    (read_quoteless_string [] (utf8_reader.mk0 nbsp_quoteless_input)).1 =
        .ok ⟨.string, [97, 194, 160]⟩ ∧
      parse_element 64 default_options nulla_input =
        .ok (json.arr [json.str [110, 117, 108, 108, 97],
          json.str [110, 117, 108, 108, 32, 98], json.null]) := by
  exact ⟨rfl, rfl⟩

/-- C9: the spec claims `get_utf8_sequence_length(b)` yields 2 for
`110xxxxx`, 3 for `1110xxxx` and 4 for `11110xxx`, so that `read()`
advances past exactly the rune's bytes.  The function takes `char` (signed
on the mainstream targets), and for every lead byte `0x80..0xFF` the
expression evaluates to 1; `read()` therefore consumes only two of the
three bytes of U+2028 (`E2 80 A8`). -/
theorem C9_utf8_sequence_length_is_one :
    (∀ b : Fin 128, utf8_seq_len_byte (128 + b.val) = 1) ∧
      utf8_reader.read (utf8_reader.mk0 [226, 128, 168]) =
        some ([226, 128], ⟨[226, 128, 168], 2⟩) := by
  exact ⟨by decide, rfl⟩

section failure_invariant

/-! ### C2: the token sequence carries at most one failure, as its last
entry -/

/-- Whether a token-result entry is well-formed (not a failure). -/
def ok_token : TokenResult → Bool
  | .ok _ => true
  | .error _ => false

/-- Every entry except possibly the last is well-formed: the token
sequence contains at most one failure entry, and only as its last entry. -/
def good_tokens : List TokenResult → Bool
  | [] => true
  | [_] => true
  | t :: rest => ok_token t && good_tokens rest

theorem good_cons_ok {t : TokenResult} {p : List TokenResult}
    (ht : ok_token t = true) (hp : good_tokens p = true) :
    good_tokens (t :: p) = true := by
  cases p with
  | nil => rfl
  | cons q r => simp only [good_tokens, ht, hp, Bool.and_self]

theorem good_of_all_ok {ts : List TokenResult}
    (h : ts.all ok_token = true) : good_tokens ts = true := by
  induction ts with
  | nil => rfl
  | cons t r ih =>
    simp only [List.all_cons, Bool.and_eq_true] at h
    exact good_cons_ok h.1 (ih h.2)

theorem all_ok_of_first_error_cut_none {ts : List TokenResult}
    (h : first_error_cut ts = none) : ts.all ok_token = true := by
  induction ts with
  | nil => rfl
  | cons t r ih =>
    cases t with
    | ok v =>
      simp only [first_error_cut, Option.map_eq_none'] at h
      simp only [List.all_cons, Bool.and_eq_true]
      exact ⟨rfl, ih h⟩
    | error e =>
      simp only [first_error_cut] at h
      exact Option.noConfusion h

theorem good_of_first_error_cut {ts pre : List TokenResult}
    (h : first_error_cut ts = some pre) : good_tokens pre = true := by
  induction ts generalizing pre with
  | nil =>
    simp only [first_error_cut] at h
    exact Option.noConfusion h
  | cons t r ih =>
    cases t with
    | ok v =>
      simp only [first_error_cut, Option.map_eq_some'] at h
      obtain ⟨p, hp, rfl⟩ := h
      exact good_cons_ok rfl (ih hp)
    | error e =>
      simp only [first_error_cut, Option.some.injEq] at h
      subst h
      rfl

theorem good_append_all_ok {a b : List TokenResult}
    (ha : a.all ok_token = true) (hb : good_tokens b = true) :
    good_tokens (a ++ b) = true := by
  induction a with
  | nil => simpa using hb
  | cons t r ih =>
    simp only [List.all_cons, Bool.and_eq_true] at ha
    exact good_cons_ok ha.1 (ih ha.2)

theorem good_append_cut (sub : List TokenResult) :
    good_tokens (append_cut sub) = true := by
  unfold append_cut
  cases h : first_error_cut sub with
  | none =>
    simpa using good_of_all_ok (all_ok_of_first_error_cut_none h)
  | some pre =>
    simpa using good_of_first_error_cut h

theorem good_forward {sub : List TokenResult} {s : utf8_reader}
    {k : utf8_reader → List TokenResult × utf8_reader}
    (hk : ∀ s', good_tokens ((k s').1) = true) :
    good_tokens ((forward_tokens sub s k).1) = true := by
  unfold forward_tokens
  cases h : first_error_cut sub with
  | none =>
    have := good_append_all_ok (all_ok_of_first_error_cut_none h) (hk s)
    simpa using this
  | some pre =>
    simpa using good_of_first_error_cut h

/-- The token sequence of every production body satisfies the invariant,
for every fuel, call and state. -/
theorem elementStep_good (opts : jsonh_reader_options) :
    ∀ (n : Nat) (c : call) (s : utf8_reader),
      good_tokens (elementStep opts n c s).1 = true := by
  intro n
  induction n with
  | zero => intro c s; rfl
  | succ n ih =>
    intro c s
    cases c with
    | element =>
      simp only [elementStep, read_element_F]
      apply good_forward
      intro s1
      split
      · rfl
      split
      · exact good_append_cut _
      split
      · exact good_append_cut _
      split
      · rfl
      split
      · split
        · exact good_append_cut _
        · split <;> rfl
      · rfl
    | object =>
      simp only [elementStep, read_object_F]
      split
      · exact good_append_cut _
      · exact good_cons_ok rfl (ih .object_loop _)
    | object_loop =>
      simp only [elementStep, read_object_loop_F]
      apply good_forward
      intro s1
      split
      · split <;> rfl
      split
      · rfl
      · apply good_forward
        intro s2
        exact ih .object_loop s2
    | braceless pn =>
      simp only [elementStep, read_braceless_object_F]
      split
      · exact good_cons_ok rfl (ih .braceless_loop _)
      · exact good_cons_ok rfl (good_forward (fun s' => ih .braceless_loop s'))
    | braceless_loop =>
      simp only [elementStep, read_braceless_loop_F]
      apply good_forward
      intro s1
      split
      · rfl
      · apply good_forward
        intro s2
        exact ih .braceless_loop s2
    | property pn =>
      simp only [elementStep, read_property_F]
      apply good_forward
      intro s1
      apply good_forward
      intro s2
      apply good_forward
      intro s3
      apply good_forward
      intro s4
      rfl
    | array =>
      simp only [elementStep, read_array_F]
      split
      · rfl
      · exact good_cons_ok rfl (ih .array_loop _)
    | array_loop =>
      simp only [elementStep, read_array_loop_F]
      apply good_forward
      intro s1
      split
      · split <;> rfl
      split
      · rfl
      · apply good_forward
        intro s2
        exact ih .array_loop s2
    | item =>
      simp only [elementStep, read_item_F]
      apply good_forward
      intro s1
      apply good_forward
      intro s2
      rfl

theorem countP_failures_le_one {ts : List TokenResult}
    (h : good_tokens ts = true) :
    ts.countP (fun t => !ok_token t) ≤ 1 := by
  induction ts with
  | nil => simp
  | cons t r ih =>
    cases r with
    | nil =>
      simp only [List.countP_cons, List.countP_nil]
      split <;> simp
    | cons q u =>
      simp only [good_tokens, Bool.and_eq_true] at h
      have hr := ih h.2
      rw [List.countP_cons]
      simp only [h.1, Bool.not_true, Bool.false_eq_true, if_false]
      simpa using hr

/-- C2: for every input byte sequence, every options record and every
fuel, the token sequence returned by `read_element` contains at most one
failure entry, and every entry except possibly the last is well-formed
(so a failure, when present, is the last entry and no tokens follow it). -/
theorem C2_failure_at_most_once_and_last :
    ∀ (input : List Byte) (opts : jsonh_reader_options) (fuel : Nat),
      (read_element fuel opts input).1.countP (fun t => !ok_token t) ≤ 1 ∧
        good_tokens (read_element fuel opts input).1 = true := by
  intro input opts fuel
  have h := elementStep_good opts fuel .element (utf8_reader.mk0 input)
  exact ⟨countP_failures_le_one h, h⟩

end failure_invariant

section decimal_mode_total

/-! ### C10: the decimal path of the number parser is total -/

theorem parse_fractional_number_base10 (d : List Byte) :
    parse_fractional_number d base10_digits = .ok (string_to_number d) := by
  simp [parse_fractional_number]

theorem pfnwe_base10_isOk (d : List Byte) :
    (parse_fractional_number_with_exponent d base10_digits).isOk = true := by
  unfold parse_fractional_number_with_exponent
  cases h : find_exponent_index d base10_digits with
  | none => simp [parse_fractional_number_base10, Except.isOk, Except.toBool]
  | some i => simp [parse_fractional_number_base10, Except.isOk, Except.toBool]

/-- C10: whenever the digit alphabet selected after underscore and sign
stripping is the decimal one (no `0x`/`0b`/`0o` base prefix),
`jsonh_number_parse` returns a value and never an error — the mantissa and
exponent are delegated to the host `strtold` model, which silently yields 0
on empty or non-numeric text: `parse("") = 0` and `parse("abc") = 0`.
(`Invalid digit` can only arise from `parse_whole_number`, which is
reached only with a non-decimal alphabet.) -/
theorem C10_decimal_mode_never_errors :
    (∀ input : List Byte,
        (strip_base_specifier (strip_number_sign (remove_underscores input)).2).1 =
            base10_digits →
          (jsonh_number_parse input).isOk = true) ∧
      jsonh_number_parse [] = .ok 0 ∧
      jsonh_number_parse [97, 98, 99] = .ok 0 := by
  refine ⟨?_, by with_unfolding_all rfl, by with_unfolding_all rfl⟩
  intro input h
  simp only [jsonh_number_parse]
  rw [h]
  cases hp : parse_fractional_number_with_exponent
      (strip_base_specifier (strip_number_sign (remove_underscores input)).2).2
      base10_digits with
  | error e =>
    have := pfnwe_base10_isOk
      (strip_base_specifier (strip_number_sign (remove_underscores input)).2).2
    rw [hp] at this
    exact Bool.noConfusion this
  | ok q => rfl

/-- Witness for C10 at the concrete decimal-mode input `abc`. -/
theorem C10_decimal_mode_never_errors_witness :
    (jsonh_number_parse [97, 98, 99]).isOk = true :=
  C10_decimal_mode_never_errors.1 [97, 98, 99] (by decide)

end decimal_mode_total

section dedent_analysis

/-! ### C4: analysis of the multi-quoted-string dedent

The two scanning passes are related to plain folds over the remaining
bytes (for ASCII bodies without `\r`, where the stray outer-reader peeks
cannot fire), and the folds are evaluated on single-interior-line bodies. -/

open utf8_reader

theorem drop_cons_get? {data : List Byte} {p : Nat} {b : Byte} {rest : List Byte}
    (h : data.drop p = b :: rest) :
    data[p]? = some b ∧ data.drop (p + 1) = rest := by
  induction data generalizing p with
  | nil => simp at h
  | cons a d ih =>
    cases p with
    | zero =>
      simp only [List.drop_zero] at h
      cases h
      exact ⟨by simp, by simp⟩
    | succ p =>
      simp only [List.drop_succ_cons] at h
      have := ih h
      exact ⟨by simpa using this.1, by simpa [List.drop_succ_cons] using this.2⟩

theorem drop_nil_get? {data : List Byte} {p : Nat}
    (h : data.drop p = []) : data[p]? = none := by
  induction data generalizing p with
  | nil => simp
  | cons a d ih =>
    cases p with
    | zero => simp at h
    | succ p =>
      simp only [List.drop_succ_cons] at h
      simpa using ih h

theorem read_byte_at {data : List Byte} {p : Nat} {b : Byte} {rest : List Byte}
    (h : data.drop p = b :: rest) (hb : b ≤ 127) :
    utf8_reader.read ⟨data, p⟩ = some ([b], ⟨data, p + 1⟩) := by
  have hg := (drop_cons_get? h).1
  simp [utf8_reader.read, hg, hb]

theorem read_end_at {data : List Byte} {p : Nat}
    (h : data.drop p = []) : utf8_reader.read ⟨data, p⟩ = none := by
  simp [utf8_reader.read, drop_nil_get? h]

theorem contains_newline_single (b : Byte) :
    newline_runes.contains [b] = (decide (b = 10) || decide (b = 13)) := by
  simp [newline_runes, List.contains]

theorem contains_whitespace_single (b : Byte) :
    whitespace_runes.contains [b] =
      (decide (b = 32) || (decide (b = 9) || (decide (b = 10) ||
        (decide (b = 11) || (decide (b = 12) || decide (b = 13)))))) := by
  simp [whitespace_runes, List.contains]

/-- Pass 2 as a fold over the remaining bytes (valid for ASCII bodies
without `\r`). -/
def pass2_fold : List Byte → Nat → Bool × Nat × Nat → Bool × Nat × Nat
  | [], _, acc => acc
  | b :: rest, idx, (has, last, t) =>
    if b = 10 then pass2_fold rest (idx + 1) (true, idx, 0)
    else if b = 32 ∨ b = 9 ∨ b = 11 ∨ b = 12 then
      pass2_fold rest (idx + 1) (has, last, t + 1)
    else
      pass2_fold rest (idx + 1) (false, last, 0)

theorem dedent_pass2_eq_fold :
    ∀ (suffix : List Byte) (n : Nat) (data : List Byte) (p : Nat)
      (outer : utf8_reader) (acc : Bool × Nat × Nat),
      data.drop p = suffix → suffix.length ≤ n →
      (∀ b ∈ suffix, b ≤ 127 ∧ b ≠ 13) →
      dedent_pass2 n ⟨data, p⟩ outer acc = pass2_fold suffix p acc := by
  intro suffix
  induction suffix with
  | nil =>
    intro n data p outer acc hdrop _ _
    cases n with
    | zero => rfl
    | succ m => simp [dedent_pass2, read_end_at hdrop, pass2_fold]
  | cons b rest ih =>
    intro n data p outer acc hdrop hlen hbytes
    obtain ⟨has, last, t⟩ := acc
    have hb := hbytes b (by simp)
    cases n with
    | zero => simp at hlen
    | succ m =>
      have hread := read_byte_at hdrop hb.1
      have hdrop' := (drop_cons_get? hdrop).2
      have hrest : ∀ x ∈ rest, x ≤ 127 ∧ x ≠ 13 := fun x hx => hbytes x (by simp [hx])
      have hlen' : rest.length ≤ m := by simpa using hlen
      by_cases h10 : b = 10
      · subst h10
        simp only [dedent_pass2, hread, contains_newline_single]
        norm_num
        rw [ih m data (p + 1) outer (true, p, 0) hdrop' hlen' hrest]
        simp [pass2_fold]
      · by_cases hws : b = 32 ∨ b = 9 ∨ b = 11 ∨ b = 12
        · simp only [dedent_pass2, hread, contains_newline_single,
            contains_whitespace_single]
          have hn : (decide (b = 10) || decide (b = 13)) = false := by
            simp [h10, hb.2]
          have hw : (decide (b = 32) || (decide (b = 9) || (decide (b = 10) ||
              (decide (b = 11) || (decide (b = 12) || decide (b = 13)))))) = true := by
            rcases hws with h | h | h | h <;> simp [h]
          rw [hn, hw]
          simp only [Bool.false_eq_true, if_false, if_true]
          rw [ih m data (p + 1) outer (has, last, t + 1) hdrop' hlen' hrest]
          simp [pass2_fold, h10, hws]
        · simp only [dedent_pass2, hread, contains_newline_single,
            contains_whitespace_single]
          have hn : (decide (b = 10) || decide (b = 13)) = false := by
            simp [h10, hb.2]
          have hw : (decide (b = 32) || (decide (b = 9) || (decide (b = 10) ||
              (decide (b = 11) || (decide (b = 12) || decide (b = 13)))))) = false := by
            push_neg at hws
            simp [h10, hb.2, hws.1, hws.2.1, hws.2.2]
          rw [hn, hw]
          simp only [Bool.false_eq_true, if_false]
          rw [ih m data (p + 1) outer (false, last, 0) hdrop' hlen' hrest]
          simp [pass2_fold, h10, hws]

/-- Pass 5 as a fold over the remaining bytes of the (frozen) pass-4
result, with the evolving string threaded through (valid for ASCII
bodies). -/
def pass5_fold : List Byte → Nat → Nat → List Byte → Bool → Nat → List Byte
  | [], _, _, sb, _, _ => sb
  | b :: rest, idx, t, sb, is_lead, cnt =>
    if b = 10 ∨ b = 13 then pass5_fold rest (idx + 1) t sb true 0
    else if b = 32 ∨ b = 9 ∨ b = 11 ∨ b = 12 then
      if is_lead then
        if cnt + 1 = t then
          pass5_fold rest (idx + 1) t (list_erase sb (idx + 1 - (cnt + 1)) (cnt + 1))
            false (cnt + 1)
        else pass5_fold rest (idx + 1) t sb is_lead (cnt + 1)
      else pass5_fold rest (idx + 1) t sb is_lead cnt
    else
      if is_lead then
        pass5_fold rest (idx + 1) t (list_erase sb (idx - cnt) cnt) false cnt
      else pass5_fold rest (idx + 1) t sb is_lead cnt

theorem dedent_pass5_eq_fold :
    ∀ (suffix : List Byte) (n : Nat) (data : List Byte) (p : Nat)
      (t : Nat) (sb : List Byte) (is_lead : Bool) (cnt : Nat),
      data.drop p = suffix → suffix.length ≤ n →
      (∀ b ∈ suffix, b ≤ 127) →
      dedent_pass5 n ⟨data, p⟩ t sb is_lead cnt = pass5_fold suffix p t sb is_lead cnt := by
  intro suffix
  induction suffix with
  | nil =>
    intro n data p t sb is_lead cnt hdrop _ _
    cases n with
    | zero => rfl
    | succ m => simp [dedent_pass5, read_end_at hdrop, pass5_fold]
  | cons b rest ih =>
    intro n data p t sb is_lead cnt hdrop hlen hbytes
    have hb := hbytes b (by simp)
    cases n with
    | zero => simp at hlen
    | succ m =>
      have hread := read_byte_at hdrop hb
      have hdrop' := (drop_cons_get? hdrop).2
      have hrest : ∀ x ∈ rest, x ≤ 127 := fun x hx => hbytes x (by simp [hx])
      have hlen' : rest.length ≤ m := by simpa using hlen
      by_cases hnl : b = 10 ∨ b = 13
      · simp only [dedent_pass5, hread, contains_newline_single]
        have hn : (decide (b = 10) || decide (b = 13)) = true := by
          rcases hnl with h | h <;> simp [h]
        rw [hn]
        simp only [if_true]
        rw [ih m data (p + 1) t sb true 0 hdrop' hlen' hrest]
        simp [pass5_fold, hnl]
      · push_neg at hnl
        by_cases hws : b = 32 ∨ b = 9 ∨ b = 11 ∨ b = 12
        · simp only [dedent_pass5, hread, contains_newline_single,
            contains_whitespace_single]
          have hn : (decide (b = 10) || decide (b = 13)) = false := by
            simp [hnl.1, hnl.2]
          have hw : (decide (b = 32) || (decide (b = 9) || (decide (b = 10) ||
              (decide (b = 11) || (decide (b = 12) || decide (b = 13)))))) = true := by
            rcases hws with h | h | h | h <;> simp [h]
          rw [hn, hw]
          simp only [Bool.false_eq_true, if_false, if_true]
          by_cases hlead : is_lead = true
          · subst hlead
            by_cases hcnt : cnt + 1 = t
            · rw [if_pos rfl, if_pos hcnt]
              rw [ih m data (p + 1) t _ false (cnt + 1) hdrop' hlen' hrest]
              simp [pass5_fold, hnl.1, hnl.2, hws, hcnt]
            · rw [if_pos rfl, if_neg hcnt]
              rw [ih m data (p + 1) t sb true (cnt + 1) hdrop' hlen' hrest]
              simp [pass5_fold, hnl.1, hnl.2, hws, hcnt]
          · have hlf : is_lead = false := by
              cases is_lead
              · rfl
              · exact absurd rfl hlead
            subst hlf
            simp only [Bool.false_eq_true, if_false]
            rw [ih m data (p + 1) t sb false cnt hdrop' hlen' hrest]
            simp [pass5_fold, hnl.1, hnl.2, hws]
        · simp only [dedent_pass5, hread, contains_newline_single,
            contains_whitespace_single]
          have hn : (decide (b = 10) || decide (b = 13)) = false := by
            simp [hnl.1, hnl.2]
          have hw : (decide (b = 32) || (decide (b = 9) || (decide (b = 10) ||
              (decide (b = 11) || (decide (b = 12) || decide (b = 13)))))) = false := by
            push_neg at hws
            simp [hnl.1, hnl.2, hws.1, hws.2.1, hws.2.2]
          rw [hn, hw]
          simp only [Bool.false_eq_true, if_false]
          by_cases hlead : is_lead = true
          · subst hlead
            simp only [if_true]
            rw [ih m data (p + 1) t _ false cnt hdrop' hlen' hrest]
            simp [pass5_fold, hnl.1, hnl.2, hws]
          · have hlf : is_lead = false := by
              cases is_lead
              · rfl
              · exact absurd rfl hlead
            subst hlf
            simp only [Bool.false_eq_true, if_false]
            rw [ih m data (p + 1) t sb false cnt hdrop' hlen' hrest]
            simp [pass5_fold, hnl.1, hnl.2, hws]

end dedent_analysis

section dedent_runs

/-! ### Evaluating the pass folds on single-interior-line bodies -/

theorem printable_ne_10 {b : Nat} (hb : 33 ≤ b ∧ b ≤ 126) : ¬(b = 10) := by omega

theorem printable_not_nl {b : Nat} (hb : 33 ≤ b ∧ b ≤ 126) : ¬(b = 10 ∨ b = 13) := by
  omega

theorem printable_not_ws {b : Nat} (hb : 33 ≤ b ∧ b ≤ 126) :
    ¬(b = 32 ∨ b = 9 ∨ b = 11 ∨ b = 12) := by omega

theorem pass2_fold_newline_step (rest : List Byte) (idx : Nat)
    (acc : Bool × Nat × Nat) :
    pass2_fold (10 :: rest) idx acc = pass2_fold rest (idx + 1) (true, idx, 0) := by
  obtain ⟨has, last, t⟩ := acc
  simp [pass2_fold]

theorem pass2_fold_space_step (rest : List Byte) (idx : Nat)
    (has : Bool) (last t : Nat) :
    pass2_fold (32 :: rest) idx (has, last, t) =
      pass2_fold rest (idx + 1) (has, last, t + 1) := by
  simp [pass2_fold]

theorem pass2_fold_nonws_step {b : Byte} (hb : 33 ≤ b ∧ b ≤ 126)
    (rest : List Byte) (idx : Nat) (acc : Bool × Nat × Nat) :
    pass2_fold (b :: rest) idx acc = pass2_fold rest (idx + 1) (false, acc.2.1, 0) := by
  obtain ⟨has, last, t⟩ := acc
  simp only [pass2_fold]
  rw [if_neg (printable_ne_10 hb), if_neg (printable_not_ws hb)]

theorem pass2_fold_spaces (j : Nat) :
    ∀ (rest : List Byte) (idx : Nat) (has : Bool) (last t : Nat),
      pass2_fold (List.replicate j 32 ++ rest) idx (has, last, t) =
        pass2_fold rest (idx + j) (has, last, t + j) := by
  induction j with
  | zero => intro rest idx has last t; simp
  | succ j ih =>
    intro rest idx has last t
    rw [List.replicate_succ, List.cons_append, pass2_fold_space_step,
      ih rest (idx + 1) has last (t + 1),
      show idx + 1 + j = idx + (j + 1) by omega,
      show t + 1 + j = t + (j + 1) by omega]

theorem pass2_fold_nonws :
    ∀ (c : List Byte), (∀ b ∈ c, 33 ≤ b ∧ b ≤ 126) →
      ∀ (rest : List Byte) (idx last : Nat),
        pass2_fold (c ++ rest) idx (false, last, 0) =
          pass2_fold rest (idx + c.length) (false, last, 0) := by
  intro c
  induction c with
  | nil => intro _ rest idx last; simp
  | cons b c' ih =>
    intro hb rest idx last
    rw [List.cons_append, pass2_fold_nonws_step (hb b (by simp)),
      ih (fun x hx => hb x (by simp [hx])) rest (idx + 1) last,
      show idx + 1 + c'.length = idx + (b :: c').length by simp; omega]

theorem pass5_fold_newline_step {b : Byte} (hb : b = 10 ∨ b = 13)
    (rest : List Byte) (idx t : Nat) (sb : List Byte) (is_lead : Bool) (cnt : Nat) :
    pass5_fold (b :: rest) idx t sb is_lead cnt =
      pass5_fold rest (idx + 1) t sb true 0 := by
  simp [pass5_fold, hb]

theorem pass5_fold_space_step (rest : List Byte) (idx t : Nat)
    (sb : List Byte) (cnt : Nat) :
    pass5_fold (32 :: rest) idx t sb true cnt =
      if cnt + 1 = t then
        pass5_fold rest (idx + 1) t (list_erase sb (idx + 1 - (cnt + 1)) (cnt + 1))
          false (cnt + 1)
      else pass5_fold rest (idx + 1) t sb true (cnt + 1) := by
  simp [pass5_fold]

theorem pass5_fold_nonws_lead_step {b : Byte} (hb : 33 ≤ b ∧ b ≤ 126)
    (rest : List Byte) (idx t : Nat) (sb : List Byte) (cnt : Nat) :
    pass5_fold (b :: rest) idx t sb true cnt =
      pass5_fold rest (idx + 1) t (list_erase sb (idx - cnt) cnt) false cnt := by
  simp only [pass5_fold]
  rw [if_neg (printable_not_nl hb), if_neg (printable_not_ws hb)]
  simp

theorem pass5_fold_no_lead :
    ∀ (bytes : List Byte), (∀ b ∈ bytes, ¬(b = 10 ∨ b = 13)) →
      ∀ (idx t : Nat) (sb : List Byte) (cnt : Nat),
        pass5_fold bytes idx t sb false cnt = sb := by
  intro bytes
  induction bytes with
  | nil => intro _ idx t sb cnt; rfl
  | cons b rest ih =>
    intro h idx t sb cnt
    have hb := h b (by simp)
    have hrest : ∀ x ∈ rest, ¬(x = 10 ∨ x = 13) := fun x hx => h x (by simp [hx])
    simp only [pass5_fold]
    rw [if_neg hb]
    split
    · exact ih hrest _ _ _ _
    · exact ih hrest _ _ _ _

theorem pass5_fold_spaces_reach (t : Nat) :
    ∀ (j cnt : Nat), cnt + (j + 1) = t →
      ∀ (rest : List Byte) (idx : Nat) (sb : List Byte),
        pass5_fold (List.replicate (j + 1) 32 ++ rest) idx t sb true cnt =
          pass5_fold rest (idx + (j + 1)) t
            (list_erase sb (idx + (j + 1) - t) t) false t := by
  intro j
  induction j with
  | zero =>
    intro cnt hcnt rest idx sb
    rw [List.replicate_succ, List.replicate_zero, List.cons_append, List.nil_append,
      pass5_fold_space_step, if_pos (by omega)]
    rw [show cnt + 1 = t by omega]
  | succ j ih =>
    intro cnt hcnt rest idx sb
    rw [List.replicate_succ, List.cons_append, pass5_fold_space_step,
      if_neg (by omega), ih (cnt + 1) (by omega) rest (idx + 1) sb,
      show idx + 1 + (j + 1) = idx + (j + 1 + 1) by omega]

theorem pass5_fold_spaces_under (t : Nat) :
    ∀ (j cnt : Nat), cnt + j < t →
      ∀ (rest : List Byte) (idx : Nat) (sb : List Byte),
        pass5_fold (List.replicate j 32 ++ rest) idx t sb true cnt =
          pass5_fold rest (idx + j) t sb true (cnt + j) := by
  intro j
  induction j with
  | zero => intro cnt _ rest idx sb; simp
  | succ j ih =>
    intro cnt hcnt rest idx sb
    rw [List.replicate_succ, List.cons_append, pass5_fold_space_step,
      if_neg (by omega), ih (cnt + 1) (by omega) rest (idx + 1) sb,
      show idx + 1 + j = idx + (j + 1) by omega,
      show cnt + 1 + j = cnt + (j + 1) by omega]

theorem take_append_len (l₁ l₂ : List Byte) : (l₁ ++ l₂).take l₁.length = l₁ := by
  induction l₁ with
  | nil => simp
  | cons a l ih => simp [ih]

theorem drop_append_le (t : Nat) :
    ∀ (l₁ l₂ : List Byte), t ≤ l₁.length → (l₁ ++ l₂).drop t = l₁.drop t ++ l₂ := by
  induction t with
  | zero => intro l₁ l₂ _; simp
  | succ t ih =>
    intro l₁ l₂ h
    cases l₁ with
    | nil => simp at h
    | cons a l => simpa using ih l l₂ (by simpa using h)

theorem replicate_drop (t : Nat) :
    ∀ (k : Nat), (List.replicate k (32 : Byte)).drop t = List.replicate (k - t) 32 := by
  induction t with
  | zero => intro k; simp
  | succ t ih =>
    intro k
    cases k with
    | zero => simp
    | succ k => simp [List.replicate_succ, ih k]

end dedent_runs

section c4_theorems

theorem printable_le_127 {b : Nat} (hb : 33 ≤ b ∧ b ≤ 126) : b ≤ 127 ∧ b ≠ 13 := by
  omega

theorem dedent_pass1_newline_start (n : Nat) (rest : List Byte) (outer : utf8_reader) :
    dedent_pass1 (n + 1) (utf8_reader.mk0 (10 :: rest)) outer = (true, 1) := by
  have hread := read_byte_at (show (10 :: rest).drop 0 = 10 :: rest by simp)
    (show (10 : Byte) ≤ 127 by norm_num)
  simp only [dedent_pass1, utf8_reader.mk0, hread, contains_newline_single]
  simp

/-- C4 (counterexample): the multi-quoted-string dedent is not idempotent.
The body `"\n \nA\n\n "` dedents to `"\nA\n"`, and the already-dedented
body `"\nA\n"` dedents further to `"A"`.  The last two conjuncts exhibit the
same pair through `read_string` itself, on the multi-quoted inputs
`'''<body>'''`. -/
theorem C4_dedent_not_idempotent :
    multiline_dedent (utf8_reader.mk0 []) [10, 32, 10, 65, 10, 10, 32] = [10, 65, 10] ∧
      multiline_dedent (utf8_reader.mk0 []) [10, 65, 10] = [65] ∧
      multiline_dedent (utf8_reader.mk0 [])
          (multiline_dedent (utf8_reader.mk0 []) [10, 32, 10, 65, 10, 10, 32]) ≠
        multiline_dedent (utf8_reader.mk0 []) [10, 32, 10, 65, 10, 10, 32] ∧
      (read_string (utf8_reader.mk0
          [39, 39, 39, 10, 32, 10, 65, 10, 10, 32, 39, 39, 39])).1 =
        .ok ⟨.string, [10, 65, 10]⟩ ∧
      (read_string (utf8_reader.mk0 [39, 39, 39, 10, 65, 10, 39, 39, 39])).1 =
        .ok ⟨.string, [65]⟩ := by
  exact ⟨rfl, rfl, by decide, rfl, rfl⟩

/-- C4 (amended): the dedent removes up to `T` leading whitespace runes per
line, where `T` is the whitespace run between the final newline and the end
of the body (the indentation of the closing-quote line) — not the common
indentation of the interior lines — and it is not idempotent.  For every
single-interior-line body `"\n" ++ " "*k ++ c ++ "\n" ++ " "*t` with `c`
nonempty printable ASCII, the result drops `min k t` leading spaces:
`" "*(k-t) ++ c`. -/
theorem C4_dedent_single_line_strips_closing_indent :
    ∀ (outer : utf8_reader) (k t : Nat) (c : List Byte),
      c ≠ [] → (∀ b ∈ c, 33 ≤ b ∧ b ≤ 126) →
      multiline_dedent outer
          (10 :: (List.replicate k 32 ++ (c ++ 10 :: List.replicate t 32))) =
        List.replicate (k - t) 32 ++ c := by
  intro outer k t c hc hcb
  cases c with
  | nil => exact absurd rfl hc
  | cons b c' =>
    have hcb' : ∀ x ∈ c', 33 ≤ x ∧ x ≤ 126 := fun x hx => hcb x (by simp [hx])
    have hbb := hcb b (by simp)
    have hBbytes : ∀ x ∈ (10 :: (List.replicate k 32 ++
        (b :: c' ++ 10 :: List.replicate t 32))), x ≤ 127 ∧ x ≠ 13 := by
      intro x hx
      simp only [List.mem_cons, List.mem_append, List.mem_replicate] at hx
      rcases hx with rfl | ⟨_, rfl⟩ | (rfl | hxc) | rfl | ⟨_, rfl⟩
      · exact ⟨by norm_num, by norm_num⟩
      · exact ⟨by norm_num, by norm_num⟩
      · exact printable_le_127 hbb
      · exact printable_le_127 (hcb' x hxc)
      · exact ⟨by norm_num, by norm_num⟩
      · exact ⟨by norm_num, by norm_num⟩
    have hfold2 : pass2_fold (10 :: (List.replicate k 32 ++
        (b :: c' ++ 10 :: List.replicate t 32))) 0 (false, 0, 0) =
        (true, k + (b :: c').length + 1, t) := by
      rw [pass2_fold_newline_step, pass2_fold_spaces, List.cons_append,
        pass2_fold_nonws_step hbb, pass2_fold_nonws c' hcb',
        pass2_fold_newline_step,
        show (List.replicate t 32 : List Byte) = List.replicate t 32 ++ [] by simp,
        pass2_fold_spaces]
      show ((true, _, _) : Bool × Nat × Nat) = _
      simp only [Prod.mk.injEq, List.length_cons]
      refine ⟨by trivial, by omega, by omega⟩
    have hp1 : dedent_pass1 ((10 :: (List.replicate k 32 ++
        (b :: c' ++ 10 :: List.replicate t 32))).length + 1)
        (utf8_reader.mk0 (10 :: (List.replicate k 32 ++
          (b :: c' ++ 10 :: List.replicate t 32)))) outer = (true, 1) :=
      dedent_pass1_newline_start _ _ _
    have hp2 : dedent_pass2 ((10 :: (List.replicate k 32 ++
        (b :: c' ++ 10 :: List.replicate t 32))).length + 1)
        (utf8_reader.mk0 (10 :: (List.replicate k 32 ++
          (b :: c' ++ 10 :: List.replicate t 32)))) outer (false, 0, 0) =
        (true, k + (b :: c').length + 1, t) := by
      have h := dedent_pass2_eq_fold
        (10 :: (List.replicate k 32 ++ (b :: c' ++ 10 :: List.replicate t 32)))
        ((10 :: (List.replicate k 32 ++ (b :: c' ++ 10 :: List.replicate t 32))).length + 1)
        (10 :: (List.replicate k 32 ++ (b :: c' ++ 10 :: List.replicate t 32)))
        0 outer (false, 0, 0) (by simp) (by omega) hBbytes
      exact h.trans hfold2
    have htake : (10 :: (List.replicate k 32 ++
        (b :: c' ++ 10 :: List.replicate t 32))).take (k + (b :: c').length + 1) =
        10 :: (List.replicate k 32 ++ (b :: c')) := by
      have hsplit : (10 :: (List.replicate k 32 ++
          (b :: c' ++ 10 :: List.replicate t 32)) : List Byte) =
          (10 :: (List.replicate k 32 ++ (b :: c'))) ++ (10 :: List.replicate t 32) := by
        simp [List.append_assoc]
      have hlen : (10 :: (List.replicate k 32 ++ (b :: c')) : List Byte).length =
          k + (b :: c').length + 1 := by simp
      rw [hsplit, ← hlen, take_append_len]
    simp only [multiline_dedent, hp1, hp2, if_true]
    rw [htake]
    simp only [List.drop_one, List.tail_cons]
    by_cases ht0 : 0 < t
    · rw [if_pos ht0]
      have hbytes5 : ∀ x ∈ (List.replicate k 32 ++ (b :: c')), x ≤ 127 := by
        intro x hx
        simp only [List.mem_append, List.mem_replicate, List.mem_cons] at hx
        rcases hx with ⟨_, rfl⟩ | rfl | hxc
        · norm_num
        · exact (printable_le_127 hbb).1
        · exact (printable_le_127 (hcb' x hxc)).1
      have hfold5 : pass5_fold (List.replicate k 32 ++ (b :: c')) 0 t
          (List.replicate k 32 ++ (b :: c')) true 0 =
          List.replicate (k - t) 32 ++ (b :: c') := by
        obtain ⟨s, rfl⟩ : ∃ s, t = s + 1 := ⟨t - 1, by omega⟩
        by_cases hkt : s + 1 ≤ k
        · have hnonl : ∀ x ∈ (List.replicate (k - (s + 1)) 32 ++ (b :: c')),
              ¬(x = 10 ∨ x = 13) := by
            intro x hx
            simp only [List.mem_append, List.mem_replicate, List.mem_cons] at hx
            rcases hx with ⟨_, rfl⟩ | rfl | hxc
            · norm_num
            · exact printable_not_nl hbb
            · exact printable_not_nl (hcb' x hxc)
          have hsplitk : (List.replicate k (32 : Byte)) =
              List.replicate (s + 1) 32 ++ List.replicate (k - (s + 1)) 32 := by
            rw [← List.replicate_add]
            congr 1
            omega
          rw [hsplitk, List.append_assoc, pass5_fold_spaces_reach (s + 1) s 0 (by omega)]
          have herase : list_erase (List.replicate (s + 1) 32 ++
              (List.replicate (k - (s + 1)) 32 ++ (b :: c')))
              (0 + (s + 1) - (s + 1)) (s + 1) =
              List.replicate (k - (s + 1)) 32 ++ (b :: c') := by
            simp only [list_erase, Nat.zero_add, Nat.add_sub_cancel, Nat.sub_self,
              List.take_zero, List.nil_append]
            rw [drop_append_le (s + 1) _ _ (by simp), replicate_drop]
            simp
          rw [herase, pass5_fold_no_lead _ hnonl]
        · rw [pass5_fold_spaces_under (s + 1) k 0 (by omega),
            pass5_fold_nonws_lead_step hbb]
          have herase : list_erase (List.replicate k 32 ++ (b :: c'))
              (0 + k - (0 + k)) (0 + k) = b :: c' := by
            simp only [list_erase, Nat.zero_add, Nat.add_sub_cancel, Nat.sub_self,
              List.take_zero, List.nil_append]
            rw [drop_append_le k _ _ (by simp), replicate_drop]
            simp
          rw [herase, pass5_fold_no_lead c'
            (fun x hx => printable_not_nl (hcb' x hx)),
            show k - (s + 1) = 0 by omega]
          simp
      have hp5 : dedent_pass5 ((List.replicate k 32 ++ (b :: c')).length + 1)
          (utf8_reader.mk0 (List.replicate k 32 ++ (b :: c'))) t
          (List.replicate k 32 ++ (b :: c')) true 0 =
          List.replicate (k - t) 32 ++ (b :: c') := by
        have h := dedent_pass5_eq_fold (List.replicate k 32 ++ (b :: c'))
          ((List.replicate k 32 ++ (b :: c')).length + 1)
          (List.replicate k 32 ++ (b :: c')) 0 t
          (List.replicate k 32 ++ (b :: c')) true 0 (by simp) (by omega) hbytes5
        exact h.trans hfold5
      exact hp5
    · rw [if_neg ht0]
      have ht : t = 0 := by omega
      subst ht
      simp

/-- Witness for the amended C4 at `k = 2`, `t = 1`, `c = "A"`. -/
theorem C4_dedent_single_line_strips_closing_indent_witness :
    multiline_dedent (utf8_reader.mk0 []) [10, 32, 32, 65, 10, 32] = [32, 65] := by
  have h := C4_dedent_single_line_strips_closing_indent (utf8_reader.mk0 []) 2 1 [65]
    (by decide) (by decide)
  simpa using h

end c4_theorems
